import Mathlib

/-! NNLAF: animation registry and game loop

A shallow embedding of `src/anim.c` and `src/game.c`.

* C `int` values are integers; operations whose C behaviour is undefined
  (out-of-bounds array access, division by zero, conversions that do not fit
  an `int`) make the embedded function return `none`.
* Pointers to list nodes are indices into a heap (a list of nodes); the null
  pointer is `none`.
* `double` arithmetic is IEEE 754 binary64 with round-to-nearest-even,
  computed exactly on integer significands.
* Loops over linked lists whose termination depends on the shape of the heap
  take a fuel argument and return `none` when it runs out.
-/

namespace NNLAF

/-! ## C scalars and arrays -/

def INT_MAX : Int := 2147483647

def INT_MIN : Int := -2147483648

/-- Reading `a[i]` with a C `int` index: `none` outside the array. -/
def array_get {α : Type} (a : List α) (i : Int) : Option α :=
  if 0 ≤ i then a[i.toNat]? else none

/-- Writing `a[i] = v` with a C `int` index: `none` outside the array. -/
def array_set {α : Type} (a : List α) (i : Int) (v : α) : Option (List α) :=
  if 0 ≤ i ∧ i.toNat < a.length then some (a.set i.toNat v) else none

/-! ## Binary64 arithmetic -/

/-- A finite binary64 value, `m * 2 ^ e`. -/
structure double where
  m : Int
  e : Int
deriving DecidableEq, Repr

/-- The number of low bits to drop from `n` to leave at most 53 bits; the
first argument bounds the search and is `n` itself at the call. -/
def excess_bits : Nat → Nat → Nat
  | 0, _ => 0
  | f + 1, n => if n < 2 ^ 53 then 0 else excess_bits f (n / 2) + 1

/-- Rounding of a natural significand to 53 bits, to nearest, ties to even:
the kept significand and the number of low bits dropped. -/
def round53 (n : Nat) : Nat × Nat :=
  let sh := excess_bits n n
  let q := n / 2 ^ sh
  let r := n % 2 ^ sh
  if 2 ^ sh < 2 * r ∨ (2 ^ sh = 2 * r ∧ q % 2 = 1) then (q + 1, sh) else (q, sh)

/-- Conversion `int -> double`; exact, since an `int` has at most 31 bits. -/
def double_of_int (i : Int) : double := { m := i, e := 0 }

/-- Binary64 product: the exact product of the significands, rounded. The
operands met in `anim_draw` keep every result far inside the normal range, so
no overflow or underflow case is modelled. -/
def double_mul (a b : double) : double :=
  let p := a.m * b.m
  let qs := round53 p.natAbs
  { m := Int.sign p * (qs.1 : Int), e := a.e + b.e + (qs.2 : Int) }

/-- Conversion `(int)d`: truncation toward zero; undefined when the truncated
value does not fit an `int`. -/
def double_to_int (d : double) : Option Int :=
  let t := if 0 ≤ d.e then d.m * 2 ^ d.e.toNat else Int.tdiv d.m (2 ^ (-d.e).toNat)
  if INT_MIN ≤ t ∧ t ≤ INT_MAX then some t else none

/-- The literal `0.01666`: the binary64 value nearest to 1666/100000, which
is `2400959033343759 / 2 ^ 57`. -/
def MAGIC : double := { m := 2400959033343759, e := -57 }

/-! ## Framesets and animations (`anim.c`) -/

/-- An `SDL_Rect`. -/
structure SDL_Rect where
  x : Int
  y : Int
  w : Int
  h : Int
deriving DecidableEq, Repr

/-- An `SDL_Surface`, as far as `anim.c` looks at it: its size, and the
source rectangle of the blit that filled it (`none` before any blit). -/
structure SDL_Surface where
  w : Int
  h : Int
  src : Option SDL_Rect
deriving DecidableEq, Repr

/-- The struct `fset_t`. `name` is the array `wchar_t name[NAME_MAX_LEN]`,
`next` the link, `frames` the array of surface pointers (indices into the
surface store, `none` for `NULL`). -/
structure fset_t where
  name : List Nat
  next : Option Nat
  len : Int
  frames : List (Option Nat)
deriving DecidableEq, Repr

/-- The struct `anim_t`; `frames` holds borrowed surface pointers. -/
structure anim_t where
  name : List Nat
  next : Option Nat
  len : Int
  fps : Int
  frames : List (Option Nat)
deriving DecidableEq, Repr

/-- The wide string stored at the start of an array: the characters before
the first zero. For an array that holds a zero this is the string that C
reads there. For a list without a zero it is the whole list: that is right
for a key, whose terminator follows its characters, while on a name array
without a zero C would read on past the array, which is undefined. -/
def wcs (a : List Nat) : List Nat := a.takeWhile (fun c => c != 0)

/-- The call `wcsncpy(dest, src, n)`: the first `n` slots of `dest` receive
the string `src`, padded with zeros when it is shorter than `n`, cut when it
is longer (then without terminator); the slots from `n` on keep what they
held. -/
def wcsncpy (dest src : List Nat) (n : Nat) : List Nat :=
  (wcs src ++ List.replicate n 0).take n ++ dest.drop n

/-- The call `wcscmp(a, b)`: zero exactly when the two strings are equal. -/
def wcscmp (a b : List Nat) : Int :=
  if wcs a = wcs b then 0 else if wcs a < wcs b then -1 else 1

/-- The inner loop of `fset_create` for one row `r`: columns `c`, `c+1`, ...
for `n` more iterations. Each iteration allocates a surface of the frame
size, blits the source rectangle at `(c * w, r * h)` into it and stores its
pointer at index `c + r * cols`. -/
def fset_create_cols (w h cols r : Int) :
    Nat → Int → List (Option Nat) → List SDL_Surface →
      Option (List (Option Nat) × List SDL_Surface)
  | 0, _, frames, surfaces => some (frames, surfaces)
  | n + 1, c, frames, surfaces =>
    let frame : SDL_Surface := { w := w, h := h, src := some { x := c * w, y := r * h, w := w, h := h } }
    match array_set frames (c + r * cols) (some surfaces.length) with
    | none => none
    | some frames1 => fset_create_cols w h cols r n (c + 1) frames1 (surfaces ++ [frame])

/-- The outer loop of `fset_create`: rows `r`, `r+1`, ... for `n` more
iterations. -/
def fset_create_rows (w h cols : Int) :
    Nat → Int → List (Option Nat) → List SDL_Surface →
      Option (List (Option Nat) × List SDL_Surface)
  | 0, _, frames, surfaces => some (frames, surfaces)
  | n + 1, r, frames, surfaces =>
    match fset_create_cols w h cols r cols.toNat 0 frames surfaces with
    | none => none
    | some (frames1, surfaces1) => fset_create_rows w h cols n (r + 1) frames1 surfaces1

/-- The function `fset_create`. `NAME_MAX_LEN` is the constant of the absent
header, `raw` the content of the freshly allocated name array, `tmp` the
image that `load_image` returned, `surfaces` the surface store. The result is
the new node and the store with the new frames; a slot of the frame array
that the loops never assign is shown as `NULL`. Undefined: a zero `cols` or
`rows` (division), a product `cols * rows` outside `int`. -/
def fset_create (NAME_MAX_LEN : Nat) (raw : List Nat) (tmp : SDL_Surface) (name : List Nat)
    (cols rows : Int) (surfaces : List SDL_Surface) : Option (fset_t × List SDL_Surface) :=
  if cols = 0 ∨ rows = 0 then none
  else if cols * rows < INT_MIN ∨ INT_MAX < cols * rows then none
  else
    let len := cols * rows
    let w := Int.tdiv tmp.w cols
    let h := Int.tdiv tmp.h rows
    match fset_create_rows w h cols rows.toNat 0 (List.replicate len.toNat none) surfaces with
    | none => none
    | some (frames, surfaces1) =>
      some ({ name := wcsncpy raw name (NAME_MAX_LEN - 1), next := none, len := len,
              frames := frames }, surfaces1)

/-- The function `anim_create`: every one of the `len` slots is `NULL`. -/
def anim_create (NAME_MAX_LEN : Nat) (raw : List Nat) (name : List Nat) (len fps : Int) : anim_t :=
  { name := wcsncpy raw name (NAME_MAX_LEN - 1), next := none, len := len, fps := fps,
    frames := List.replicate len.toNat none }

/-- The loop of `anim_add_frame` from slot `i`, for `n` more iterations.
The result is the animation, the frameset and what was written to `stderr`. -/
def anim_add_frame_loop (anim : anim_t) (frameset : fset_t) (frame_index : Int) :
    Nat → Nat → Option (anim_t × fset_t × List String)
  | 0, _ => some (anim, frameset, ["Warning: anim_add_frame: No more room for frame"])
  | n + 1, i =>
    match anim.frames[i]? with
    | none => none
    | some none =>
      match array_get frameset.frames frame_index with
      | none => none
      | some f => some ({ anim with frames := anim.frames.set i f }, frameset, [])
    | some (some _) => anim_add_frame_loop anim frameset frame_index n (i + 1)

/-- The function `anim_add_frame`. -/
def anim_add_frame (anim : anim_t) (frameset : fset_t) (frame_index : Int) :
    Option (anim_t × fset_t × List String) :=
  anim_add_frame_loop anim frameset frame_index anim.len.toNat 0

/-- The loop of `anim_set_frames` from slot `i`, for `n` more iterations. -/
def anim_set_frames_loop (frameset : fset_t) (start_index : Int) :
    Nat → Nat → anim_t → Option (anim_t × fset_t)
  | 0, _, anim => some (anim, frameset)
  | n + 1, i, anim =>
    match array_get frameset.frames (start_index + (i : Int)) with
    | none => none
    | some f =>
      match array_set anim.frames (i : Int) f with
      | none => none
      | some frames1 =>
        anim_set_frames_loop frameset start_index n (i + 1) { anim with frames := frames1 }

/-- The function `anim_set_frames`. -/
def anim_set_frames (anim : anim_t) (frameset : fset_t) (start_index : Int) :
    Option (anim_t × fset_t) :=
  anim_set_frames_loop frameset start_index anim.len.toNat 0 anim

/-- The frame offset of `anim_draw`, `(int)((step*0.01666) * anim->fps)`.
Undefined when the product does not fit an `int`. -/
def anim_frame_offset (fps step : Int) : Option Int :=
  double_to_int (double_mul (double_mul (double_of_int step) MAGIC) (double_of_int fps))

/-- The index expression of `anim_draw`,
`((int)((step*0.01666) * anim->fps)) % anim->len`. Undefined: an offset that
does not fit an `int`, a zero `len`, and `INT_MIN % -1`. -/
def anim_draw_index (len fps step : Int) : Option Int :=
  match anim_frame_offset fps step with
  | none => none
  | some k =>
    if len = 0 then none
    else if k = INT_MIN ∧ len = -1 then none
    else some (Int.tmod k len)

/-- The function `anim_draw`: the frame pointer it hands to the blit. -/
def anim_draw (anim : anim_t) (step : Int) : Option (Option Nat) :=
  match anim_draw_index anim.len anim.fps step with
  | none => none
  | some i => array_get anim.frames i

/-! ## Registries: the intrusive singly linked lists of `anim.c`

`fset_list_add` / `anim_list_add` and `fset_list_get` / `anim_list_get` are
the same code on the two node types; they read `name` and `next` and write
`next` only. -/

/-- What the list functions use of a node type. -/
class linked (α : Type) where
  name : α → List Nat
  next : α → Option Nat
  set_next : α → Option Nat → α
  next_set_next : ∀ a p, next (set_next a p) = p
  name_set_next : ∀ a p, name (set_next a p) = name a

instance : linked fset_t where
  name := fun a => a.name
  next := fun a => a.next
  set_next := fun a p => { a with next := p }
  next_set_next := fun _ _ => rfl
  name_set_next := fun _ _ => rfl

instance : linked anim_t where
  name := fun a => a.name
  next := fun a => a.next
  set_next := fun a p => { a with next := p }
  next_set_next := fun _ _ => rfl
  name_set_next := fun _ _ => rfl

/-- Allocation of a node (`malloc`): the node is placed at a fresh address. -/
def alloc {α : Type} (heap : List α) (node : α) : List α × Nat :=
  (heap ++ [node], heap.length)

/-- The loop of `fset_list_add` / `anim_list_add` with `iter` as its cursor,
then the final store `iter->next = node`. -/
def list_add_loop {α : Type} [linked α] (heap : List α) (node : Nat) :
    Nat → Nat → Option (List α)
  | 0, _ => none
  | fuel + 1, iter =>
    match heap[iter]? with
    | none => none
    | some n =>
      match linked.next n with
      | some nx => if iter = node then some heap else list_add_loop heap node fuel nx
      | none => some (heap.set iter (linked.set_next n (some node)))

/-- The function `fset_list_add`. -/
def fset_list_add (fuel : Nat) (heap : List fset_t) (head frameset : Nat) :
    Option (List fset_t) :=
  list_add_loop heap frameset fuel head

/-- The function `anim_list_add`. -/
def anim_list_add (fuel : Nat) (heap : List anim_t) (head anim : Nat) :
    Option (List anim_t) :=
  list_add_loop heap anim fuel head

/-- The loop of `fset_list_get` / `anim_list_get` with `iter` as its cursor;
the result is the heap and the pointer returned (`none` for `NULL`). -/
def list_get_loop {α : Type} [linked α] (heap : List α) (name : List Nat) :
    Nat → Nat → Option (List α × Option Nat)
  | 0, _ => none
  | fuel + 1, iter =>
    match heap[iter]? with
    | none => none
    | some n =>
      if wcscmp name (linked.name n) ≠ 0 then
        match linked.next n with
        | none => some (heap, none)
        | some nx => list_get_loop heap name fuel nx
      else some (heap, some iter)

/-- The function `fset_list_get`. -/
def fset_list_get (fuel : Nat) (heap : List fset_t) (head : Nat) (name : List Nat) :
    Option (List fset_t × Option Nat) :=
  list_get_loop heap name fuel head

/-- The function `anim_list_get`. -/
def anim_list_get (fuel : Nat) (heap : List anim_t) (head : Nat) (name : List Nat) :
    Option (List anim_t × Option Nat) :=
  list_get_loop heap name fuel head

/-- The pointers of `l` are linked in this order and the last one ends the
list: each node is allocated, its `next` is the following pointer, and the
`next` of the last is `NULL`. -/
def is_chain {α : Type} [linked α] (heap : List α) : List Nat → Bool
  | [] => false
  | [p] =>
    match heap[p]? with
    | some n => (linked.next n).isNone
    | none => false
  | p :: q :: l =>
    (match heap[p]? with
     | some n => linked.next n == some q
     | none => false) && is_chain heap (q :: l)

/-- An acyclic registry: from `head` the links run through the nodes `l`, in
this order, and reach `NULL`. -/
def registry {α : Type} [linked α] (heap : List α) (head : Nat) (l : List Nat) : Prop :=
  l.head? = some head ∧ is_chain heap l = true

instance {α : Type} [linked α] (heap : List α) (head : Nat) (l : List Nat) :
    Decidable (registry heap head l) := by
  unfold registry; infer_instance

/-- The node at `p` stores the name `key`. -/
def has_name {α : Type} [linked α] (heap : List α) (key : List Nat) (p : Nat) : Bool :=
  match heap[p]? with
  | some n => wcs (linked.name n) == wcs key
  | none => false

/-- The name array of the node at `p` holds a terminator: it stores a string,
and `wcscmp` on it stays inside the array. -/
def name_terminated {α : Type} [linked α] (heap : List α) (p : Nat) : Bool :=
  match heap[p]? with
  | some n => (linked.name n).contains 0
  | none => false

/-! ## The game loop (`game.c`)

Only `game.c`, `game.h` and `core.h` are at hand. The collaborators whose
code is absent (rectangles, controller, menu widget, player, enemies, target
actions, loader) are either modelled from the specification, each such
definition saying so, or taken as the fields of `env_t`. The build modelled
is the one without `DEBUG`, where `set_debug_message` does nothing. -/

def MODE_MENU : Nat := 0

def MODE_PLAY : Nat := 1

/-- Modelled from the spec: the rectangle type of the absent `rect.h`, an
axis-aligned rectangle made of `x`, `y`, `w`, `h`. -/
structure rect_t where
  x : Int
  y : Int
  w : Int
  h : Int
deriving DecidableEq, Repr

/-- The buttons that `game.c` tests. -/
inductive button where
  | BTN_U
  | BTN_D
  | BTN_A
  | BTN_X
deriving DecidableEq, Repr

/-- Modelled from the spec: the controller of the absent `controller.h`, as
the buttons held in the previous step and in this one. -/
structure controller_t where
  previous : List button
  current : List button
deriving DecidableEq, Repr

/-- Modelled from the spec: `controller_just_pressed` of the absent
`controller.c`, "true only on the step the button transitions from released
to pressed". -/
def controller_just_pressed (c : controller_t) (b : button) : Bool :=
  c.current.contains b && !c.previous.contains b

/-- The fields of an enemy that `game.c` reads and writes. -/
structure enemy_t where
  flashing : Int
  rect : rect_t
  weapon : rect_t
deriving DecidableEq, Repr

/-- The body of the player (`game->player->body`). -/
structure body_t where
  rect : rect_t
deriving DecidableEq, Repr

/-- The fields of the player that `game.c` reads and writes. -/
structure player_t where
  flashing : Int
  weapon : rect_t
  body : body_t
deriving DecidableEq, Repr

/-- A target: its rectangle and its bound action, a function pointer that is
kept as a number and run through `env_t.action`. -/
structure target_t where
  rect : rect_t
  action : Nat
deriving DecidableEq, Repr

/-- The menu handlers of `game.c`, as the function pointers handed to
`menu_add_option`. -/
inductive handler where
  | game_exit
  | game_new_game
  | game_load_game
  | game_options_menu
deriving DecidableEq, Repr

/-- Modelled from the spec: the menu widget of the absent `menu.h`, a
"registry of (label, handler) pairs" with a cursor. -/
structure menu_t where
  options : List (String × handler)
  cursor : Nat
deriving DecidableEq, Repr

/-- The field of `core_t` that `game.c` writes. -/
structure core_t where
  running : Bool
deriving DecidableEq, Repr

/-- Modelled from the spec: the camera of the absent `camera.h`, "a bounds
rectangle" and "a view rectangle". -/
structure camera_t where
  view : rect_t
  bounds : rect_t
deriving DecidableEq, Repr

/-- What `game_full_frame` put on the screen. -/
inductive draw where
  | menu
  | play
deriving DecidableEq, Repr

/-- The struct `game_t`: `step` and `mode` are `uint32_t`; `stdout` collects
what `printf` wrote and `screen` what was drawn. -/
structure game_t where
  core : core_t
  step : Nat
  mode : Nat
  controller : controller_t
  menu : menu_t
  camera : camera_t
  player : player_t
  enemies : List enemy_t
  targets : List target_t
  stdout : List String
  screen : List draw
deriving DecidableEq, Repr

/-- The collaborators of `game.c` whose code is absent and about which the
specification fixes no behaviour. `player_move` gives the weapon and body
rectangles of the player after its update; `enemy_update` gives an enemy
after its update (it "advances" the state of that enemy only); `action` runs
the action bound to a target, on the whole game; `load_game` gives the
player, the enemies and the targets of the loaded world. -/
structure env_t where
  rect_overlap : rect_t → rect_t → Bool
  rect_move_to : rect_t → rect_t → rect_t
  player_move : player_t → game_t → rect_t × rect_t
  enemy_update : enemy_t → game_t → enemy_t
  action : Nat → target_t → game_t → game_t
  menu_up : menu_t → menu_t
  menu_down : menu_t → menu_t
  load_game : game_t → player_t × List enemy_t × List target_t

/-- The function `game_exit`. -/
def game_exit (game : game_t) : game_t :=
  { game with core := { game.core with running := false } }

/-- The function `game_new_game`. -/
def game_new_game (game : game_t) : game_t :=
  { game with mode := MODE_PLAY }

/-- The function `game_load_game`. -/
def game_load_game (game : game_t) : game_t := game

/-- The function `game_options_menu`. -/
def game_options_menu (game : game_t) : game_t := game

/-- A call through a handler pointer. -/
def call_handler : handler → game_t → game_t
  | handler.game_exit => game_exit
  | handler.game_new_game => game_new_game
  | handler.game_load_game => game_load_game
  | handler.game_options_menu => game_options_menu

/-- Modelled from the spec: `menu_add_option` of the absent `menu.c`, which
adds a (label, handler) pair after those already there. -/
def menu_add_option (menu : menu_t) (label : String) (h : handler) : menu_t :=
  { menu with options := menu.options ++ [(label, h)] }

/-- Modelled from the spec: `menu_activate` of the absent `menu.c`, which
"invokes the selected menu entry's bound handler" on the game the menu was
created for. -/
def menu_activate (game : game_t) : game_t :=
  match game.menu.options[game.menu.cursor]? with
  | some (_, h) => call_handler h game
  | none => game

/-- Modelled from the spec: `player_update` of the absent `player.c`. The
invulnerability counter is "decremented to zero", by one in each logic step
(after 59 steps a counter of 60 is 1); the rectangles move as `player_move`
says. -/
def player_update (env : env_t) (player : player_t) (game : game_t) : player_t :=
  { flashing := if 0 < player.flashing then player.flashing - 1 else player.flashing,
    weapon := (env.player_move player game).1,
    body := { rect := (env.player_move player game).2 } }

/-- The function `game_create`, with the results of the absent constructors
modelled from the spec: an empty menu with the cursor on its first entry, a
controller with nothing held, empty enemy and target lists, which `load_game`
then fills; `camera` and `player` are what `camera_create` with
`camera_init`, and `player_create`, returned. -/
def game_create (env : env_t) (core : core_t) (camera : camera_t) (player : player_t) : game_t :=
  let menu0 : menu_t := { options := [], cursor := 0 }
  let menu1 := menu_add_option menu0 "New Game" handler.game_new_game
  let menu2 := menu_add_option menu1 "Load Game" handler.game_load_game
  let menu3 := menu_add_option menu2 "Options" handler.game_options_menu
  let menu4 := menu_add_option menu3 "Exit" handler.game_exit
  let game : game_t :=
    { core := core, step := 0, mode := MODE_MENU,
      controller := { previous := [], current := [] },
      menu := menu4,
      camera := { camera with bounds := { x := 0, y := 0, w := 1024, h := 1024 } },
      player := player, enemies := [], targets := [], stdout := [], screen := [] }
  let world := env.load_game game
  { game with player := world.1, enemies := world.2.1, targets := world.2.2 }

/-- The loop of `game_update_enemies` at the `i`-th node, for `n` more
iterations: `enemy_update` sees the game as the earlier updates left it. -/
def game_update_enemies_loop (env : env_t) : Nat → Nat → game_t → game_t
  | 0, _, game => game
  | n + 1, i, game =>
    match game.enemies[i]? with
    | none => game
    | some e =>
      game_update_enemies_loop env n (i + 1)
        { game with enemies := game.enemies.set i (env.enemy_update e game) }

/-- The function `game_update_enemies`. -/
def game_update_enemies (env : env_t) (game : game_t) : game_t :=
  game_update_enemies_loop env game.enemies.length 0 game

/-- One iteration of the loop of `game_check_enemies` on the enemy `e`, with
the player as the earlier iterations left it: the enemy, the player and the
lines printed. -/
def game_check_enemies_body (env : env_t) (e : enemy_t) (player : player_t) :
    enemy_t × player_t × List String :=
  let r1 : enemy_t × List String :=
    if 0 < e.flashing then ({ e with flashing := e.flashing - 1 }, [])
    else if env.rect_overlap e.rect player.weapon then
      ({ e with flashing := 15 }, ["Enemy hit by player.\n"])
    else (e, [])
  let r2 : player_t × List String :=
    if player.flashing = 0 then
      if env.rect_overlap r1.1.weapon player.body.rect then
        ({ player with flashing := 60 }, ["Player hit by enemy.\n"])
      else (player, [])
    else (player, [])
  (r1.1, r2.1, r1.2 ++ r2.2)

/-- The loop of `game_check_enemies` over the nodes from the `i`-th on: the
enemies, the player, and the lines printed, each with the position of the
enemy in whose iteration it was printed. -/
def game_check_enemies_loop (env : env_t) :
    List enemy_t → Nat → player_t → List enemy_t × player_t × List (Nat × String)
  | [], _, player => ([], player, [])
  | e :: es, i, player =>
    let b := game_check_enemies_body env e player
    let r := game_check_enemies_loop env es (i + 1) b.2.1
    (b.1 :: r.1, r.2.1, b.2.2.map (fun s => (i, s)) ++ r.2.2)

/-- The function `game_check_enemies`. -/
def game_check_enemies (env : env_t) (game : game_t) : game_t :=
  let r := game_check_enemies_loop env game.enemies 0 game.player
  { game with enemies := r.1, player := r.2.1, stdout := game.stdout ++ r.2.2.map Prod.snd }

/-- The loop of `game_check_targets` over the nodes from the `i`-th on: the
game, and the positions of the targets whose action was invoked, in order.
The walk is over the list as it stood when the loop was entered: an action
is taken not to relink the list that is being walked. -/
def game_check_targets_loop (env : env_t) : List target_t → Nat → game_t → game_t × List Nat
  | [], _, game => (game, [])
  | t :: ts, i, game =>
    if env.rect_overlap t.rect game.player.body.rect then
      if controller_just_pressed game.controller button.BTN_X then
        let r := game_check_targets_loop env ts (i + 1) (env.action t.action t game)
        (r.1, i :: r.2)
      else game_check_targets_loop env ts (i + 1) game
    else game_check_targets_loop env ts (i + 1) game

/-- The function `game_check_targets`. -/
def game_check_targets (env : env_t) (game : game_t) : game_t :=
  (game_check_targets_loop env game.targets 0 game).1

/-- The two mode branches of `game_fast_frame`. -/
inductive branch where
  | menu
  | play
deriving DecidableEq, Repr

/-- The body of `if(game->mode == MODE_MENU)` in `game_fast_frame`. -/
def game_fast_frame_menu (env : env_t) (game : game_t) : game_t :=
  let g1 := if controller_just_pressed game.controller button.BTN_U then
      { game with menu := env.menu_up game.menu } else game
  let g2 := if controller_just_pressed g1.controller button.BTN_D then
      { g1 with menu := env.menu_down g1.menu } else g1
  if controller_just_pressed g2.controller button.BTN_A then menu_activate g2 else g2

/-- The body of `if(game->mode == MODE_PLAY)` in `game_fast_frame`. -/
def game_fast_frame_play (env : env_t) (game : game_t) : game_t :=
  let g1 := { game with player := player_update env game.player game }
  let g2 := game_update_enemies env g1
  let g3 := game_check_enemies env g2
  game_check_targets env g3

/-- The function `game_fast_frame`, together with the branches it entered,
in order. -/
def game_fast_frame_traced (env : env_t) (game : game_t) : game_t × List branch :=
  let g0 := { game with step := (game.step + 1) % 2 ^ 32 }
  let r1 : game_t × List branch :=
    if g0.mode = MODE_MENU then (game_fast_frame_menu env g0, [branch.menu]) else (g0, [])
  let r2 : game_t × List branch :=
    if r1.1.mode = MODE_PLAY then (game_fast_frame_play env r1.1, [branch.play]) else (r1.1, [])
  (r2.1, r1.2 ++ r2.2)

/-- The function `game_fast_frame`. -/
def game_fast_frame (env : env_t) (game : game_t) : game_t :=
  (game_fast_frame_traced env game).1

/-- The function `game_full_frame`. -/
def game_full_frame (env : env_t) (game : game_t) : game_t :=
  let g1 := game_fast_frame env game
  let g2 := if g1.mode = MODE_MENU then { g1 with screen := g1.screen ++ [draw.menu] } else g1
  if g2.mode = MODE_PLAY then
    { g2 with
      camera := { g2.camera with view := env.rect_move_to g2.camera.view g2.player.body.rect },
      screen := g2.screen ++ [draw.play] }
  else g2

/-- Logic steps in a row: before each one the host application stores the
state of the controller it has polled. -/
def logic_steps (env : env_t) : List controller_t → game_t → game_t
  | [], game => game
  | c :: cs, game => logic_steps env cs (game_fast_frame env { game with controller := c })

/-- Passes of `game_check_enemies` in a row. -/
def check_passes (env : env_t) : Nat → game_t → game_t
  | 0, game => game
  | n + 1, game => check_passes env n (game_check_enemies env game)

/-! ## The scenarios of the specification -/

/-- The 64 x 32 image of the end-to-end scenario. -/
def scenario_image : SDL_Surface := { w := 64, h := 32, src := none }

/-- The frameset of the scenario: `fset_create` on the 64 x 32 image with two
columns and one row, in an empty surface store. -/
def scenario_fset : Option (fset_t × List SDL_Surface) :=
  fset_create 32 (List.replicate 32 0) scenario_image [119, 97, 108, 107] 2 1 []

/-- The animation of the scenario: length 2 at 2 fps, filled by
`anim_set_frames` from offset 0 of the frameset. -/
def scenario_anim : Option (anim_t × fset_t) :=
  match scenario_fset with
  | none => none
  | some (frameset, _) =>
    anim_set_frames (anim_create 32 (List.replicate 32 0) [119, 97, 108, 107] 2 2) frameset 0

/-- A frameset registry of three nodes, linked 0, 2, 1; the names are "h",
"b" and "a" in arrays of four wide characters. -/
def fset_registry : List fset_t :=
  [{ name := [104, 0, 0, 0], next := some 2, len := 0, frames := [] },
   { name := [98, 0, 0, 0], next := none, len := 1, frames := [some 0] },
   { name := [97, 0, 0, 0], next := some 1, len := 2, frames := [some 1, some 2] }]

/-- An animation registry of three nodes, linked 0, 2, 1, with the names "h",
"b" and "a". -/
def anim_registry : List anim_t :=
  [{ name := [104, 0, 0, 0], next := some 2, len := 0, fps := 0, frames := [] },
   { name := [98, 0, 0, 0], next := none, len := 1, fps := 4, frames := [some 0] },
   { name := [97, 0, 0, 0], next := some 1, len := 2, fps := 8, frames := [some 1, some 2] }]

/-- A frameset registry of two nodes: the head, and the node 1 at the tail. -/
def fset_pair : List fset_t :=
  [{ name := [104, 0, 0, 0], next := some 1, len := 0, frames := [] },
   { name := [97, 0, 0, 0], next := none, len := 1, frames := [some 0] }]

/-- An animation registry of two nodes: the head, and the node 1 at the
tail. -/
def anim_pair : List anim_t :=
  [{ name := [104, 0, 0, 0], next := some 1, len := 0, fps := 0, frames := [] },
   { name := [97, 0, 0, 0], next := none, len := 1, fps := 4, frames := [some 0] }]

/-- The frameset registry `fset_pair` with its tail node linked to itself. -/
def fset_pair_cyclic : List fset_t :=
  [{ name := [104, 0, 0, 0], next := some 1, len := 0, frames := [] },
   { name := [97, 0, 0, 0], next := some 1, len := 1, frames := [some 0] }]

/-- The animation registry `anim_pair` with its tail node linked to
itself. -/
def anim_pair_cyclic : List anim_t :=
  [{ name := [104, 0, 0, 0], next := some 1, len := 0, fps := 0, frames := [] },
   { name := [97, 0, 0, 0], next := some 1, len := 1, fps := 4, frames := [some 0] }]

/-- The frameset that `fset_create` makes of the 64 x 32 image with the name
"walk", in a name array of 32 slots that held sevens. -/
def walk_fset : fset_t :=
  { name := wcsncpy (List.replicate 32 7) [119, 97, 108, 107] 31, next := none, len := 2,
    frames := [some 0, some 1] }

/-- The two frames of `walk_fset`. -/
def walk_surfaces : List SDL_Surface :=
  [{ w := 32, h := 32, src := some { x := 0, y := 0, w := 32, h := 32 } },
   { w := 32, h := 32, src := some { x := 32, y := 0, w := 32, h := 32 } }]

/-- A name of 32 wide characters. -/
def long_name : List Nat := List.replicate 32 97

/-- An animation registry that holds its head node only, created with the
name "h". -/
def anim_head_only : List anim_t := [anim_create 32 (List.replicate 32 0) [104] 0 0]

/-- An animation of two frames at 7 fps. -/
def anim_seven_fps : anim_t :=
  { name := [97, 0, 0, 0], next := none, len := 2, fps := 7, frames := [some 0, some 1] }

/-- An animation of two frames at 2 fps. -/
def anim_two_fps : anim_t :=
  { name := [97, 0, 0, 0], next := none, len := 2, fps := 2, frames := [some 0, some 1] }

/-- Modelled from the spec: `rect_overlap` of the absent `rect.c`, the
"axis-aligned rectangle intersection" as a "half-open interval test". -/
def rect_overlap (a b : rect_t) : Bool :=
  decide (a.x < b.x + b.w) && decide (b.x < a.x + a.w) &&
    decide (a.y < b.y + b.h) && decide (b.y < a.y + a.h)

/-- Collaborators for the scenarios: nothing moves, actions do nothing, the
menu cursor moves by one, the loader leaves the world as it is. -/
def still_env : env_t :=
  { rect_overlap := rect_overlap,
    rect_move_to := fun dst src => { dst with x := src.x, y := src.y },
    player_move := fun player _ => (player.weapon, player.body.rect),
    enemy_update := fun e _ => e,
    action := fun _ _ game => game,
    menu_up := fun menu => { menu with cursor := menu.cursor - 1 },
    menu_down := fun menu => { menu with cursor := menu.cursor + 1 },
    load_game := fun game => (game.player, game.enemies, game.targets) }

/-- A game in PLAY mode with two enemies: the first is flashing with counter
3 and its hitbox overlaps the player's weapon, the second is far away. -/
def flashing_game : game_t :=
  { core := { running := true }, step := 7, mode := MODE_PLAY,
    controller := { previous := [], current := [] },
    menu := { options := [], cursor := 0 },
    camera := { view := { x := 0, y := 0, w := 640, h := 360 },
                bounds := { x := 0, y := 0, w := 1024, h := 1024 } },
    player := { flashing := 0, weapon := { x := 10, y := 0, w := 8, h := 8 },
                body := { rect := { x := 0, y := 0, w := 10, h := 20 } } },
    enemies := [{ flashing := 3, rect := { x := 12, y := 2, w := 10, h := 10 },
                  weapon := { x := 40, y := 0, w := 4, h := 4 } },
                { flashing := 0, rect := { x := 500, y := 0, w := 10, h := 10 },
                  weapon := { x := 520, y := 0, w := 4, h := 4 } }],
    targets := [], stdout := [], screen := [] }

/-- The menu after the cursor moves of the MENU branch (the tests of `BTN_U`
and `BTN_D`), as the test of `BTN_A` finds it. -/
def menu_after_moves (env : env_t) (game : game_t) : menu_t :=
  let m1 := if controller_just_pressed game.controller button.BTN_U then
      env.menu_up game.menu else game.menu
  if controller_just_pressed game.controller button.BTN_D then env.menu_down m1 else m1

/-- The MENU branch of this step activates an entry bound to `game_new_game`:
`BTN_A` was just pressed and the cursor, after its moves, is on such an
entry. -/
def activates_new_game (env : env_t) (game : game_t) : Bool :=
  controller_just_pressed game.controller button.BTN_A &&
    (match (menu_after_moves env game).options[(menu_after_moves env game).cursor]? with
     | some (_, handler.game_new_game) => true
     | _ => false)

/-- The game in the middle of the PLAY branch of a logic step: after the step
counter, `player_update` and `game_update_enemies`, before the collision
checks. -/
def game_before_checks (env : env_t) (game : game_t) : game_t :=
  game_update_enemies env
    { game with
      step := (game.step + 1) % 2 ^ 32,
      player := player_update env game.player { game with step := (game.step + 1) % 2 ^ 32 } }

/-- The game right after `game_create`, with the cursor on "New Game", in the
step in which `BTN_A` is pressed; the player's counter is 5. -/
def new_game_click : game_t :=
  { game_create still_env { running := true }
      { view := { x := 0, y := 0, w := 640, h := 360 },
        bounds := { x := 0, y := 0, w := 0, h := 0 } }
      { flashing := 5, weapon := { x := 10, y := 0, w := 8, h := 8 },
        body := { rect := { x := 0, y := 0, w := 10, h := 20 } } } with
    controller := { previous := [], current := [button.BTN_A] } }

/-- The same game with the cursor on "Exit". -/
def exit_click : game_t :=
  { new_game_click with menu := { new_game_click.menu with cursor := 3 } }

/-- A game in PLAY mode in which the player has just been hit (counter 60)
and stands in the weapon of the one enemy. -/
def hit_game : game_t :=
  { core := { running := true }, step := 100, mode := MODE_PLAY,
    controller := { previous := [], current := [] },
    menu := { options := [], cursor := 0 },
    camera := { view := { x := 0, y := 0, w := 640, h := 360 },
                bounds := { x := 0, y := 0, w := 1024, h := 1024 } },
    player := { flashing := 60, weapon := { x := 10, y := 0, w := 8, h := 8 },
                body := { rect := { x := 0, y := 0, w := 10, h := 20 } } },
    enemies := [{ flashing := 0, rect := { x := 30, y := 0, w := 10, h := 10 },
                  weapon := { x := 5, y := 5, w := 30, h := 4 } }],
    targets := [{ rect := { x := 0, y := 0, w := 4, h := 4 }, action := 0 }],
    stdout := [], screen := [] }

/-- A controller with nothing held. -/
def idle : controller_t := { previous := [], current := [] }

/-- The surface that `fset_create` makes for the slot `k` of a grid of `cols`
columns: the frame of column `k % cols` and row `k / cols`. -/
def sliced_frame (w h : Int) (cols : Nat) (k : Nat) : SDL_Surface :=
  { w := w, h := h,
    src := some { x := ((k % cols : Nat) : Int) * w, y := ((k / cols : Nat) : Int) * h,
                  w := w, h := h } }

/-- The frame array of `L` slots after the first `k` of them were assigned,
in order, the pointers `n0`, `n0 + 1`, ...: the other slots are still
`NULL`. -/
def sliced_frames (n0 L k : Nat) : List (Option Nat) :=
  (List.range' n0 k).map some ++ List.replicate (L - k) none

/-- A game in MENU mode whose step counter holds the largest `uint32_t`
value, with nothing pressed. -/
def last_step_game : game_t :=
  { new_game_click with step := 4294967295, controller := idle }

/-- A game in PLAY mode with three enemies that are not flashing: the hitboxes
of the first and of the third overlap the player's weapon, the second is far
away; the weapon of the third overlaps the player's body. -/
def three_enemies_game : game_t :=
  { flashing_game with
    enemies := [{ flashing := 0, rect := { x := 12, y := 2, w := 10, h := 10 },
                  weapon := { x := 40, y := 0, w := 4, h := 4 } },
                { flashing := 0, rect := { x := 500, y := 0, w := 10, h := 10 },
                  weapon := { x := 520, y := 0, w := 4, h := 4 } },
                { flashing := 0, rect := { x := 16, y := 0, w := 10, h := 10 },
                  weapon := { x := 5, y := 5, w := 12, h := 4 } }] }

/-- A game in PLAY mode with three targets, the first and the third under the
player's body, in the step in which `BTN_X` is pressed. -/
def three_targets_game : game_t :=
  { flashing_game with
    controller := { previous := [], current := [button.BTN_X] },
    targets := [{ rect := { x := 0, y := 0, w := 4, h := 4 }, action := 0 },
                { rect := { x := 300, y := 0, w := 4, h := 4 }, action := 1 },
                { rect := { x := 5, y := 10, w := 4, h := 4 }, action := 2 }] }

/-- Calls of `anim_add_frame` in a row on one animation, each with its
frameset and frame index. -/
def anim_add_frames : anim_t → List (fset_t × Int) → Option anim_t
  | anim, [] => some anim
  | anim, call :: calls =>
    match anim_add_frame anim call.1 call.2 with
    | none => none
    | some r => anim_add_frames r.1 calls

/-- The target `t` fires in this step of `game`: its rectangle overlaps the
player's body rectangle and `BTN_X` was just pressed. -/
def target_fires (env : env_t) (game : game_t) (t : target_t) : Bool :=
  env.rect_overlap t.rect game.player.body.rect &&
    controller_just_pressed game.controller button.BTN_X

/-- The call `(*t->action)(t, game)` of the action bound to the target `t`. -/
def invoke_action (env : env_t) (game : game_t) (t : target_t) : game_t :=
  env.action t.action t game

/-- The collaborators of the scenarios, with target actions that leave a
trace: the action 0 prints "door", the action 1 "sign", any other "chest". -/
def logging_env : env_t :=
  { still_env with
    action := fun a _ game =>
      { game with
        stdout := game.stdout ++ [if a = 0 then "door" else if a = 1 then "sign" else "chest"] } }

/-! ## Theorems -/

/-- The significand of `MAGIC` is the binary64 value nearest to 0.01666: it
has 53 bits at exponent -58 and is within half a unit in the last place. -/
theorem MAGIC_is_nearest :
    2 ^ 52 ≤ 2 * MAGIC.m ∧ 2 * MAGIC.m < 2 ^ 53 ∧ MAGIC.e = -57 ∧
      |50000 * MAGIC.m - 833 * 2 ^ 57| ≤ 12500 := by
  decide

/-- C1: at the half second the scenario animation (length 2, 2 fps, frames
set from offset 0) is still on its first frame, and at the full second it is
on its second one: `anim_draw` samples `frames[0]` at steps 0 and 30 and
`frames[1]` at step 60, where `floor(s * fps / 60) mod len` is 1 at step 30
and 0 at step 60. -/
theorem anim_draw_scenario_lags_one_frame :
    ∃ a fs, scenario_anim = some (a, fs) ∧ a.len = 2 ∧ a.fps = 2 ∧
      a.frames = [some 0, some 1] ∧ fs.frames = [some 0, some 1] ∧
      anim_draw a 0 = some (some 0) ∧
      anim_draw a 30 = some (some 0) ∧
      anim_draw a 60 = some (some 1) ∧
      array_get a.frames ((30 * 2 / 60) % 2) = some (some 1) ∧
      array_get a.frames ((60 * 2 / 60) % 2) = some (some 0) := by
  refine ⟨_, _, rfl, ?_⟩
  decide

/-- The loop of `anim_add_frame` over slots that are all filled reaches its
end without a write. -/
theorem anim_add_frame_loop_full (anim : anim_t) (frameset : fset_t) (frame_index : Int) :
    ∀ (n i : Nat), (∀ j, i ≤ j → j < i + n → ∃ f, anim.frames[j]? = some (some f)) →
      anim_add_frame_loop anim frameset frame_index n i =
        some (anim, frameset, ["Warning: anim_add_frame: No more room for frame"]) := by
  intro n
  induction n with
  | zero => intro i _; rfl
  | succ n ih =>
    intro i h
    obtain ⟨f, hf⟩ := h i (Nat.le_refl i) (by omega)
    have hrest : ∀ j, i + 1 ≤ j → j < i + 1 + n → ∃ f, anim.frames[j]? = some (some f) :=
      fun j h1 h2 => h j (by omega) (by omega)
    simp only [anim_add_frame_loop, hf]
    exact ih (i + 1) hrest

/-- C3: on an animation whose `len` slots are all filled, `anim_add_frame`
with any frameset and any frame index returns with the animation exactly as
it was (every slot, `len`, `fps`, and nothing written at or past `len`), the
frameset as it was, and the warning on `stderr`. -/
theorem anim_add_frame_full_is_noop (anim : anim_t) (frameset : fset_t) (frame_index : Int)
    (hfull : ∀ i : Nat, (i : Int) < anim.len → ∃ f, anim.frames[i]? = some (some f)) :
    anim_add_frame anim frameset frame_index =
      some (anim, frameset, ["Warning: anim_add_frame: No more room for frame"]) := by
  unfold anim_add_frame
  apply anim_add_frame_loop_full
  intro j _ hj
  exact hfull j (by omega)

/-- A full animation stays as it is under `anim_add_frame`, at a concrete
animation of three filled slots. -/
theorem anim_add_frame_full_is_noop_witness :
    (∀ i : Nat, (i : Int) < (3 : Int) →
        ∃ f, ([some 4, some 5, some 6] : List (Option Nat))[i]? = some (some f)) ∧
      anim_add_frame
          { name := [97, 0], next := none, len := 3, fps := 10,
            frames := [some 4, some 5, some 6] }
          { name := [98, 0], next := none, len := 2, frames := [some 7, some 8] } 1 =
        some ({ name := [97, 0], next := none, len := 3, fps := 10,
                frames := [some 4, some 5, some 6] },
              { name := [98, 0], next := none, len := 2, frames := [some 7, some 8] },
              ["Warning: anim_add_frame: No more room for frame"]) := by
  have h : ∀ i : Nat, (i : Int) < (3 : Int) →
      ∃ f, ([some 4, some 5, some 6] : List (Option Nat))[i]? = some (some f) := by
    intro i hi
    have hi3 : i < 3 := by omega
    interval_cases i <;> simp
  exact ⟨h, anim_add_frame_full_is_noop
    { name := [97, 0], next := none, len := 3, fps := 10, frames := [some 4, some 5, some 6] }
    { name := [98, 0], next := none, len := 2, frames := [some 7, some 8] } 1 h⟩

/-- The loop of `anim_set_frames` from slot `i`: the slots below `i` and from
`i + n` on are kept, the slots in between receive the frameset's frames. -/
theorem anim_set_frames_loop_spec (frameset : fset_t) (start_index : Int) (hs : 0 ≤ start_index) :
    ∀ (n i : Nat) (anim : anim_t),
      (0 < n → start_index.toNat + i + n ≤ frameset.frames.length) →
      i + n ≤ anim.frames.length →
      ∃ a, anim_set_frames_loop frameset start_index n i anim = some (a, frameset) ∧
        a.name = anim.name ∧ a.next = anim.next ∧ a.len = anim.len ∧ a.fps = anim.fps ∧
        a.frames.length = anim.frames.length ∧
        (∀ j, j < i → a.frames[j]? = anim.frames[j]?) ∧
        (∀ j, i ≤ j → j < i + n → a.frames[j]? = frameset.frames[start_index.toNat + j]?) ∧
        (∀ j, i + n ≤ j → a.frames[j]? = anim.frames[j]?) := by
  intro n
  induction n with
  | zero =>
    intro i anim _ _
    exact ⟨anim, rfl, rfl, rfl, rfl, rfl, rfl, fun _ _ => rfl,
      fun j h1 h2 => absurd h2 (by omega), fun _ _ => rfl⟩
  | succ n ih =>
    intro i anim hf ha
    have hf1 := hf (Nat.succ_pos n)
    have hlt : start_index.toNat + i < frameset.frames.length := by omega
    obtain ⟨f, hfr⟩ : ∃ f, frameset.frames[start_index.toNat + i]? = some f :=
      ⟨_, List.getElem?_eq_getElem hlt⟩
    have hidx : (start_index + (i : Int)).toNat = start_index.toNat + i := by omega
    have hget : array_get frameset.frames (start_index + (i : Int)) = some f := by
      unfold array_get
      rw [if_pos (by omega)]
      simp only [hidx]
      exact hfr
    have hset : array_set anim.frames (i : Int) f = some (anim.frames.set i f) := by
      unfold array_set
      rw [if_pos ⟨by omega, by simp; omega⟩]
      simp
    obtain ⟨a, h1, h2, h3, h4, h5, h6, h7, h8, h9⟩ :=
      ih (i + 1) { anim with frames := (anim.frames.set i f) }
        (fun _ => by omega) (by simp; omega)
    refine ⟨a, ?_, h2, h3, h4, h5, ?_, ?_, ?_, ?_⟩
    · simp only [anim_set_frames_loop, hget, hset]
      exact h1
    · simpa using h6
    · intro j hj
      rw [h7 j (by omega)]
      simp only [List.getElem?_set]
      rw [if_neg (by omega)]
    · intro j hj1 hj2
      by_cases hji : j = i
      · subst hji
        rw [h7 j (by omega), hfr]
        have hj : j < anim.frames.length := by omega
        simp [List.getElem?_set, hj]
      · exact h8 j (by omega) (by omega)
    · intro j hj
      rw [h9 j (by omega)]
      simp only [List.getElem?_set]
      rw [if_neg (by omega)]

/-- C8: when `0 <= start_index` and `start_index + len <= frameset.len`
(both frame arrays having the entries their `len` announces),
`anim_set_frames` returns, every slot `i < len` of the animation then holds
the reference `frameset.frames[start_index + i]` whatever it held before, and
the frameset and the animation's `len`, `fps`, `name` (and link, and number of
slots) are as before. -/
theorem anim_set_frames_copies_frames (anim : anim_t) (frameset : fset_t) (start_index : Int)
    (hstart : 0 ≤ start_index) (hfit : start_index + anim.len ≤ frameset.len)
    (hfset : frameset.len.toNat ≤ frameset.frames.length)
    (hanim : anim.len.toNat ≤ anim.frames.length) :
    ∃ a, anim_set_frames anim frameset start_index = some (a, frameset) ∧
      a.len = anim.len ∧ a.fps = anim.fps ∧ a.name = anim.name ∧ a.next = anim.next ∧
      a.frames.length = anim.frames.length ∧
      ∀ i : Nat, (i : Int) < anim.len →
        ∃ f, array_get frameset.frames (start_index + (i : Int)) = some f ∧
          a.frames[i]? = some f := by
  obtain ⟨a, h1, h2, h3, h4, h5, h6, _, h8, _⟩ :=
    anim_set_frames_loop_spec frameset start_index hstart anim.len.toNat 0 anim
      (by omega) (by omega)
  refine ⟨a, h1, h4, h5, h2, h3, h6, ?_⟩
  intro i hi
  have hlt : start_index.toNat + i < frameset.frames.length := by omega
  refine ⟨frameset.frames.get ⟨start_index.toNat + i, hlt⟩, ?_, ?_⟩
  · unfold array_get
    rw [if_pos (by omega)]
    have hidx : (start_index + (i : Int)).toNat = start_index.toNat + i := by omega
    rw [hidx]
    exact List.getElem?_eq_getElem hlt
  · rw [h8 i (by omega) (by omega)]
    exact List.getElem?_eq_getElem hlt

/-- The bulk copy at a concrete animation of two slots and a frameset of
four frames, from offset 1. -/
theorem anim_set_frames_copies_frames_witness :
    ((0 : Int) ≤ 1 ∧ (1 : Int) + 2 ≤ 4) ∧
      ∃ a, anim_set_frames
          { name := [97, 0], next := none, len := 2, fps := 5, frames := [none, some 9] }
          { name := [98, 0], next := none, len := 4,
            frames := [some 0, some 1, some 2, some 3] } 1 =
          some (a, { name := [98, 0], next := none, len := 4,
                     frames := [some 0, some 1, some 2, some 3] }) ∧
        a.len = 2 ∧ a.fps = 5 ∧ a.name = [97, 0] ∧ a.next = none ∧ a.frames.length = 2 ∧
        ∀ i : Nat, (i : Int) < (2 : Int) →
          ∃ f, array_get [some 0, some 1, some 2, some 3] ((1 : Int) + (i : Int)) = some f ∧
            a.frames[i]? = some f :=
  ⟨by decide, anim_set_frames_copies_frames
    { name := [97, 0], next := none, len := 2, fps := 5, frames := [none, some 9] }
    { name := [98, 0], next := none, len := 4, frames := [some 0, some 1, some 2, some 3] } 1
    (by decide) (by decide) (by decide) (by decide)⟩

/-- The call `wcscmp` is nonzero exactly on different strings. -/
theorem wcscmp_ne_zero_iff (a b : List Nat) : wcscmp a b ≠ 0 ↔ wcs a ≠ wcs b := by
  unfold wcscmp
  split
  · simp_all
  · split <;> simp_all

/-- Along a chain the lookup loop returns the first pointer whose node stores
the key, and `NULL` when there is none. -/
theorem list_get_loop_chain {α : Type} [linked α] (heap : List α) (key : List Nat) :
    ∀ (l : List Nat) (p fuel : Nat), is_chain heap (p :: l) = true → l.length < fuel →
      list_get_loop heap key fuel p = some (heap, (p :: l).find? (has_name heap key)) := by
  intro l
  induction l with
  | nil =>
    intro p fuel hc hf
    obtain ⟨f, rfl⟩ : ∃ f, fuel = f + 1 := ⟨fuel - 1, by omega⟩
    simp only [is_chain] at hc
    cases hp : heap[p]? with
    | none => simp [hp] at hc
    | some n =>
      simp only [hp, Option.isNone_iff_eq_none] at hc
      simp only [list_get_loop, hp, hc, List.find?_cons, has_name, List.find?_nil]
      by_cases hw : wcs key = wcs (linked.name n)
      · have : ¬ (wcscmp key (linked.name n) ≠ 0) := by
          rw [wcscmp_ne_zero_iff]; simpa using hw
        simp [this, hw]
      · have : wcscmp key (linked.name n) ≠ 0 := (wcscmp_ne_zero_iff _ _).2 hw
        have hw2 : (wcs (linked.name n) == wcs key) = false := by
          simpa using fun h => hw h.symm
        simp [this, hw2]
  | cons q r ih =>
    intro p fuel hc hf
    obtain ⟨f, rfl⟩ : ∃ f, fuel = f + 1 := ⟨fuel - 1, by simp at hf; omega⟩
    simp only [is_chain, Bool.and_eq_true] at hc
    obtain ⟨hc1, hc2⟩ := hc
    cases hp : heap[p]? with
    | none => simp [hp] at hc1
    | some n =>
      simp only [hp, beq_iff_eq] at hc1
      have hrec := ih q f hc2 (by simp at hf; omega)
      by_cases hw : wcs key = wcs (linked.name n)
      · have : ¬ (wcscmp key (linked.name n) ≠ 0) := by
          rw [wcscmp_ne_zero_iff]; simpa using hw
        simp [list_get_loop, hp, this, List.find?_cons, has_name, hw]
      · have : wcscmp key (linked.name n) ≠ 0 := (wcscmp_ne_zero_iff _ _).2 hw
        have hw2 : ¬ wcs (linked.name n) = wcs key := fun h => hw h.symm
        rw [List.find?_cons]
        have hn : has_name heap key p = false := by simp [has_name, hp, hw2]
        simp only [hn]
        simp only [list_get_loop, hp, hc1]
        rw [if_pos this]
        exact hrec

/-- The lookup on a registry, for either node type: the heap is returned as
it was, the result is `NULL` exactly when no node stores the key, and
otherwise it is the first node of the list that does. -/
theorem list_get_loop_registry {α : Type} [linked α] (heap : List α) (head : Nat)
    (l : List Nat) (key : List Nat) (fuel : Nat) (hfuel : l.length ≤ fuel)
    (hreg : registry heap head l) :
    ∃ r, list_get_loop heap key fuel head = some (heap, r) ∧
      (r = none ↔ ∀ p ∈ l, has_name heap key p = false) ∧
      (∀ p, r = some p → has_name heap key p = true ∧
        ∃ before after, l = before ++ p :: after ∧
          ∀ q ∈ before, has_name heap key q = false) := by
  obtain ⟨hhead, hchain⟩ := hreg
  cases l with
  | nil => simp [is_chain] at hchain
  | cons p l =>
    simp only [List.head?_cons, Option.some.injEq] at hhead
    subst hhead
    refine ⟨_, list_get_loop_chain heap key l p fuel hchain (by simpa using hfuel), ?_, ?_⟩
    · rw [List.find?_eq_none]
      simp
    · intro q hq
      rw [List.find?_eq_some] at hq
      obtain ⟨h1, before, after, h2, h3⟩ := hq
      exact ⟨h1, before, after, h2, fun a ha => by simpa using h3 a ha⟩

/-- C10: on an acyclic registry whose nodes store names (every name array
holds its terminator, so that each `wcscmp` reads a string), `fset_list_get`
and `anim_list_get` return (with fuel for the length of the list) and leave
the registry unchanged; the result is `NULL` if and only if no node of the
registry stores a name equal to the key, and otherwise it is the first node
in list order whose stored name equals the key. -/
theorem list_get_returns_first_match (fsets : List fset_t) (anims : List anim_t) (head : Nat)
    (l : List Nat) (key : List Nat) (fuel : Nat) (hfuel : l.length ≤ fuel) :
    (registry fsets head l → (∀ p ∈ l, name_terminated fsets p = true) →
      ∃ r, fset_list_get fuel fsets head key = some (fsets, r) ∧
        (r = none ↔ ∀ p ∈ l, has_name fsets key p = false) ∧
        (∀ p, r = some p → has_name fsets key p = true ∧
          ∃ before after, l = before ++ p :: after ∧
            ∀ q ∈ before, has_name fsets key q = false)) ∧
    (registry anims head l → (∀ p ∈ l, name_terminated anims p = true) →
      ∃ r, anim_list_get fuel anims head key = some (anims, r) ∧
        (r = none ↔ ∀ p ∈ l, has_name anims key p = false) ∧
        (∀ p, r = some p → has_name anims key p = true ∧
          ∃ before after, l = before ++ p :: after ∧
            ∀ q ∈ before, has_name anims key q = false)) :=
  ⟨fun h _ => list_get_loop_registry fsets head l key fuel hfuel h,
   fun h _ => list_get_loop_registry anims head l key fuel hfuel h⟩

/-- The lookup of "b" in the two registries of three nodes linked 0, 2, 1,
whose name arrays of four slots each hold a terminator: the node found is
node 1, the last of the list. -/
theorem list_get_returns_first_match_witness :
    [0, 2, 1].length ≤ 3 ∧ registry fset_registry 0 [0, 2, 1] ∧
      registry anim_registry 0 [0, 2, 1] ∧
      (∀ p ∈ [0, 2, 1], name_terminated fset_registry p = true) ∧
      (∀ p ∈ [0, 2, 1], name_terminated anim_registry p = true) ∧
      (∃ r, fset_list_get 3 fset_registry 0 [98] = some (fset_registry, r) ∧
        (r = none ↔ ∀ p ∈ [0, 2, 1], has_name fset_registry [98] p = false) ∧
        (∀ p, r = some p → has_name fset_registry [98] p = true ∧
          ∃ before after, [0, 2, 1] = before ++ p :: after ∧
            ∀ q ∈ before, has_name fset_registry [98] q = false)) ∧
      (∃ r, anim_list_get 3 anim_registry 0 [98] = some (anim_registry, r) ∧
        (r = none ↔ ∀ p ∈ [0, 2, 1], has_name anim_registry [98] p = false) ∧
        (∀ p, r = some p → has_name anim_registry [98] p = true ∧
          ∃ before after, [0, 2, 1] = before ++ p :: after ∧
            ∀ q ∈ before, has_name anim_registry [98] q = false)) ∧
      fset_list_get 3 fset_registry 0 [98] = some (fset_registry, some 1) ∧
      anim_list_get 3 anim_registry 0 [122] = some (anim_registry, none) :=
  ⟨by decide, by decide, by decide, by decide, by decide,
   (list_get_returns_first_match fset_registry anim_registry 0 [0, 2, 1] [98] 3
      (by decide)).1 (by decide) (by decide),
   (list_get_returns_first_match fset_registry anim_registry 0 [0, 2, 1] [98] 3
      (by decide)).2 (by decide) (by decide),
   by decide, by decide⟩

/-- On the registry whose tail is linked to itself, the lookup loop never
leaves the two nodes when the key is stored in neither. -/
theorem list_get_loop_cyclic {α : Type} [linked α] (heap : List α) (key : List Nat) (h t : α)
    (h0 : heap[0]? = some h) (h1 : heap[1]? = some t)
    (hn : linked.next h = some 1) (tn : linked.next t = some 1)
    (hk : wcs key ≠ wcs (linked.name h)) (tk : wcs key ≠ wcs (linked.name t)) :
    ∀ fuel, list_get_loop heap key fuel 0 = none ∧ list_get_loop heap key fuel 1 = none := by
  intro fuel
  induction fuel with
  | zero => exact ⟨rfl, rfl⟩
  | succ f ih =>
    have hh : wcscmp key (linked.name h) ≠ 0 := (wcscmp_ne_zero_iff _ _).2 hk
    have ht : wcscmp key (linked.name t) ≠ 0 := (wcscmp_ne_zero_iff _ _).2 tk
    constructor
    · simp only [list_get_loop, h0, hn]
      rw [if_pos hh]
      exact ih.2
    · simp only [list_get_loop, h1, tn]
      rw [if_pos ht]
      exact ih.2

/-- C2: adding again the node that is at the tail of a registry links that
node to itself. On the registries of two nodes (head 0, tail 1), with any
fuel of at least two, `fset_list_add` and `anim_list_add` of node 1 return a
heap that differs from the one given: the `next` of node 1 is node 1. The
registry is then cyclic, and the lookup of a name stored in no node never
returns, whatever the fuel. -/
theorem list_add_of_tail_links_it_to_itself :
    registry fset_pair 0 [0, 1] ∧ registry anim_pair 0 [0, 1] ∧
      (∀ k, fset_list_add (k + 2) fset_pair 0 1 = some fset_pair_cyclic) ∧
      (∀ k, anim_list_add (k + 2) anim_pair 0 1 = some anim_pair_cyclic) ∧
      fset_pair_cyclic ≠ fset_pair ∧ anim_pair_cyclic ≠ anim_pair ∧
      fset_pair_cyclic[1]? = some { name := [97, 0, 0, 0], next := some 1, len := 1,
                                     frames := [some 0] } ∧
      (∀ fuel, fset_list_get fuel fset_pair_cyclic 0 [122] = none) ∧
      (∀ fuel, anim_list_get fuel anim_pair_cyclic 0 [122] = none) := by
  refine ⟨by decide, by decide, fun k => rfl, fun k => rfl, by decide, by decide, rfl, ?_, ?_⟩
  · intro fuel
    exact (list_get_loop_cyclic fset_pair_cyclic [122] _ _ rfl rfl rfl rfl
      (by decide) (by decide) fuel).1
  · intro fuel
    exact (list_get_loop_cyclic anim_pair_cyclic [122] _ _ rfl rfl rfl rfl
      (by decide) (by decide) fuel).1


/-- A chain of at least two pointers: the first node links to the second, and the rest is a chain. -/
theorem is_chain_cons_cons {α : Type} [linked α] (heap : List α) (p q : Nat) (l : List Nat) :
    is_chain heap (p :: q :: l) = true ↔
      (∃ n, heap[p]? = some n ∧ linked.next n = some q) ∧ is_chain heap (q :: l) = true := by
  simp only [is_chain, Bool.and_eq_true]
  cases hp : heap[p]? with
  | none => simp
  | some n => simp

/-- A chain of one pointer: its node ends the list. -/
theorem is_chain_singleton {α : Type} [linked α] (heap : List α) (p : Nat) :
    is_chain heap [p] = true ↔ ∃ n, heap[p]? = some n ∧ linked.next n = none := by
  simp only [is_chain]
  cases hp : heap[p]? with
  | none => simp
  | some n => simp

/-- The pointers from any position of a chain on form a chain. -/
theorem is_chain_suffix {α : Type} [linked α] (heap : List α) (p : Nat) (b : List Nat) :
    ∀ a : List Nat, is_chain heap (a ++ p :: b) = true → is_chain heap (p :: b) = true := by
  intro a
  induction a with
  | nil => intro h; exact h
  | cons x a ih =>
    intro h
    cases a with
    | nil => exact ((is_chain_cons_cons heap x p b).1 h).2
    | cons y a => exact ih ((is_chain_cons_cons heap x y (a ++ p :: b)).1 h).2

/-- A chain is determined by its first pointer. -/
theorem is_chain_functional {α : Type} [linked α] (heap : List α) :
    ∀ (l1 l2 : List Nat) (p : Nat), is_chain heap (p :: l1) = true →
      is_chain heap (p :: l2) = true → l1 = l2 := by
  intro l1
  induction l1 with
  | nil =>
    intro l2 p h1 h2
    cases l2 with
    | nil => rfl
    | cons q l2 =>
      obtain ⟨n, hn, hnx⟩ := (is_chain_singleton heap p).1 h1
      obtain ⟨⟨m, hm, hmx⟩, _⟩ := (is_chain_cons_cons heap p q l2).1 h2
      rw [hn] at hm
      cases hm
      rw [hnx] at hmx
      cases hmx
  | cons q l1 ih =>
    intro l2 p h1 h2
    obtain ⟨⟨n, hn, hnx⟩, hrest⟩ := (is_chain_cons_cons heap p q l1).1 h1
    cases l2 with
    | nil =>
      obtain ⟨m, hm, hmx⟩ := (is_chain_singleton heap p).1 h2
      rw [hn] at hm
      cases hm
      rw [hnx] at hmx
      cases hmx
    | cons r l2 =>
      obtain ⟨⟨m, hm, hmx⟩, hrest2⟩ := (is_chain_cons_cons heap p r l2).1 h2
      rw [hn] at hm
      cases hm
      rw [hnx] at hmx
      cases hmx
      rw [ih l2 q hrest hrest2]

/-- A chain visits no node twice: a list that reaches `NULL` is acyclic. -/
theorem is_chain_nodup {α : Type} [linked α] (heap : List α) :
    ∀ l : List Nat, is_chain heap l = true → l.Nodup := by
  intro l
  induction l with
  | nil => intro _; exact List.nodup_nil
  | cons p l ih =>
    intro h
    rw [List.nodup_cons]
    constructor
    · intro hmem
      obtain ⟨a, b, hab⟩ := List.append_of_mem hmem
      have hsuf : is_chain heap (p :: b) = true := by
        apply is_chain_suffix heap p b (p :: a)
        rw [hab] at h
        exact h
      have := is_chain_functional heap l b p h hsuf
      rw [this] at hab
      have hlen := congrArg List.length hab
      simp at hlen
      omega
    · cases l with
      | nil => exact List.nodup_nil
      | cons q l => exact ih ((is_chain_cons_cons heap p q l).1 h).2

/-- Every pointer of a chain is allocated. -/
theorem is_chain_allocated {α : Type} [linked α] (heap : List α) :
    ∀ l : List Nat, is_chain heap l = true → ∀ p ∈ l, p < heap.length := by
  intro l
  induction l with
  | nil => intro _ p hp; cases hp
  | cons x l ih =>
    intro h p hp
    have hx : x < heap.length := by
      cases l with
      | nil =>
        obtain ⟨n, hn, _⟩ := (is_chain_singleton heap x).1 h
        by_contra hge
        rw [List.getElem?_eq_none (by omega)] at hn
        cases hn
      | cons q l =>
        obtain ⟨⟨n, hn, _⟩, _⟩ := (is_chain_cons_cons heap x q l).1 h
        by_contra hge
        rw [List.getElem?_eq_none (by omega)] at hn
        cases hn
    rcases List.mem_cons.1 hp with rfl | hp
    · exact hx
    · cases l with
      | nil => cases hp
      | cons q l => exact ih ((is_chain_cons_cons heap x q l).1 h).2 p hp

/-- On a chain that does not hold the node, the add loop stores the node in the
link of the last node. -/
theorem list_add_loop_fresh {α : Type} [linked α] (heap : List α) (node : Nat) :
    ∀ (l : List Nat) (p fuel : Nat), is_chain heap (p :: l) = true → node ∉ p :: l →
      l.length < fuel →
      ∃ t tn, (p :: l).getLast? = some t ∧ heap[t]? = some tn ∧ linked.next tn = none ∧
        list_add_loop heap node fuel p = some (heap.set t (linked.set_next tn (some node))) := by
  intro l
  induction l with
  | nil =>
    intro p fuel hc _ hf
    obtain ⟨f, rfl⟩ : ∃ f, fuel = f + 1 := ⟨fuel - 1, by omega⟩
    obtain ⟨n, hn, hnx⟩ := (is_chain_singleton heap p).1 hc
    exact ⟨p, n, rfl, hn, hnx, by simp only [list_add_loop, hn, hnx]⟩
  | cons q l ih =>
    intro p fuel hc hnot hf
    obtain ⟨f, rfl⟩ : ∃ f, fuel = f + 1 := ⟨fuel - 1, by omega⟩
    obtain ⟨⟨n, hn, hnx⟩, hrest⟩ := (is_chain_cons_cons heap p q l).1 hc
    have hpn : p ≠ node := fun h => hnot (by simp [h])
    obtain ⟨t, tn, h1, h2, h3, h4⟩ :=
      ih q f hrest (fun h => hnot (List.mem_cons_of_mem p h)) (by simp at hf; omega)
    refine ⟨t, tn, ?_, h2, h3, ?_⟩
    · rw [List.getLast?_cons_cons]
      exact h1
    · simp only [list_add_loop, hn, hnx]
      rw [if_neg hpn]
      exact h4

/-- Allocation keeps a chain. -/
theorem is_chain_append_heap {α : Type} [linked α] (heap : List α) (nd : α) :
    ∀ l : List Nat, is_chain heap l = true → is_chain (heap ++ [nd]) l = true := by
  intro l
  induction l with
  | nil => intro h; exact h
  | cons p l ih =>
    intro h
    have hp : p < heap.length := is_chain_allocated heap (p :: l) h p (List.mem_cons_self p l)
    cases l with
    | nil =>
      obtain ⟨n, hn, hnx⟩ := (is_chain_singleton heap p).1 h
      exact (is_chain_singleton _ p).2 ⟨n, by rw [List.getElem?_append_left hp]; exact hn, hnx⟩
    | cons q l =>
      obtain ⟨⟨n, hn, hnx⟩, hrest⟩ := (is_chain_cons_cons heap p q l).1 h
      exact (is_chain_cons_cons _ p q l).2
        ⟨⟨n, by rw [List.getElem?_append_left hp]; exact hn, hnx⟩, ih hrest⟩

/-- Linking the last node of a chain to an unlinked node that ends a list
gives the chain extended by that node. -/
theorem is_chain_set_tail {α : Type} [linked α] (heap : List α) (t node : Nat) (tn nd : α)
    (ht : heap[t]? = some tn) (hnode : heap[node]? = some nd) (hnd : linked.next nd = none)
    (hne : node ≠ t) :
    ∀ l : List Nat, is_chain heap l = true → l.Nodup → l.getLast? = some t → node ∉ l →
      is_chain (heap.set t (linked.set_next tn (some node))) (l ++ [node]) = true := by
  have htlt : t < heap.length := by
    by_contra hge
    rw [List.getElem?_eq_none (by omega)] at ht
    cases ht
  intro l
  induction l with
  | nil => intro h; simp [is_chain] at h
  | cons p l ih =>
    intro hc hnd2 hlast hnot
    cases l with
    | nil =>
      simp only [List.getLast?_singleton, Option.some.injEq] at hlast
      subst hlast
      refine (is_chain_cons_cons _ p node []).2 ⟨⟨linked.set_next tn (some node), ?_, ?_⟩, ?_⟩
      · simp [List.getElem?_set, htlt]
      · exact linked.next_set_next tn (some node)
      · refine (is_chain_singleton _ node).2 ⟨nd, ?_, hnd⟩
        rw [List.getElem?_set, if_neg (fun h => hne h.symm)]
        exact hnode
    | cons q l =>
      obtain ⟨⟨n, hn, hnx⟩, hrest⟩ := (is_chain_cons_cons heap p q l).1 hc
      rw [List.getLast?_cons_cons] at hlast
      have hpt : t ≠ p := by
        intro h
        have hmem : t ∈ q :: l := List.mem_of_getLast?_eq_some hlast
        rw [h] at hmem
        exact (List.nodup_cons.1 hnd2).1 hmem
      refine (is_chain_cons_cons _ p q (l ++ [node])).2 ⟨⟨n, ?_, hnx⟩, ?_⟩
      · rw [List.getElem?_set, if_neg hpt]
        exact hn
      · exact ih hrest (List.nodup_cons.1 hnd2).2 hlast
          (fun h => hnot (List.mem_cons_of_mem p h))

/-- Writing a link does not change which names are stored. -/
theorem has_name_set_next {α : Type} [linked α] (heap : List α) (key : List Nat) (t : Nat)
    (tn : α) (ht : heap[t]? = some tn) (x : Option Nat) (p : Nat) :
    has_name (heap.set t (linked.set_next tn x)) key p = has_name heap key p := by
  have htlt : t < heap.length := by
    by_contra hge
    rw [List.getElem?_eq_none (by omega)] at ht
    cases ht
  unfold has_name
  rw [List.getElem?_set]
  by_cases h : t = p
  · subst h
    simp [htlt, ht, linked.name_set_next]
  · rw [if_neg h]

/-- Reading a string stops at the first zero. -/
theorem wcs_append_zero (a b : List Nat) : wcs (wcs a ++ 0 :: b) = wcs a := by
  unfold wcs
  induction a with
  | nil => simp
  | cons x a ih =>
    by_cases hx : x = 0
    · subst hx
      simp
    · have hx2 : (x != 0) = true := by simpa using hx
      simp only [List.takeWhile_cons, hx2, if_true, List.cons_append]
      rw [ih]

/-- When the string is shorter than the count, `wcsncpy` stores it with its
terminator, whatever the array held. -/
theorem wcs_wcsncpy (dest src : List Nat) (n : Nat) (h : (wcs src).length < n) :
    wcs (wcsncpy dest src n) = wcs src := by
  unfold wcsncpy
  obtain ⟨k, rfl⟩ : ∃ k, n = (wcs src).length + (k + 1) := ⟨n - (wcs src).length - 1, by omega⟩
  have h1 : (wcs src ++ List.replicate ((wcs src).length + (k + 1)) 0).take
      ((wcs src).length + (k + 1)) = wcs src ++ 0 :: List.replicate k 0 := by
    rw [List.take_append]
    simp [List.take_replicate, List.replicate_succ]
  rw [h1, List.append_assoc, List.cons_append]
  exact wcs_append_zero src _

/-- A node that ends a list and stores the key, allocated and added to a
registry in which no node stores the key, becomes the last node of the
registry and is what the lookup of the key returns. -/
theorem list_add_then_get {α : Type} [linked α] (heap : List α) (nd : α) (head : Nat)
    (l : List Nat) (key : List Nat) (fuel : Nat) (hreg : registry heap head l)
    (hnext : linked.next nd = none) (hname : wcs (linked.name nd) = wcs key)
    (hfresh : ∀ p ∈ l, has_name heap key p = false) (hfuel : l.length < fuel) :
    ∃ heap2, list_add_loop (alloc heap nd).1 (alloc heap nd).2 fuel head = some heap2 ∧
      heap2[(alloc heap nd).2]? = some nd ∧
      registry heap2 head (l ++ [(alloc heap nd).2]) ∧
      list_get_loop heap2 key fuel head = some (heap2, some (alloc heap nd).2) := by
  obtain ⟨hhead, hchain⟩ := hreg
  simp only [alloc]
  have halloc := is_chain_allocated heap l hchain
  have hnotin : heap.length ∉ l := fun h => Nat.lt_irrefl _ (halloc _ h)
  have hchain1 := is_chain_append_heap heap nd l hchain
  have hnode : (heap ++ [nd])[heap.length]? = some nd := by simp
  cases l with
  | nil => simp [is_chain] at hchain
  | cons p l =>
    simp only [List.head?_cons, Option.some.injEq] at hhead
    subst hhead
    obtain ⟨t, tn, h1, h2, h3, h4⟩ :=
      list_add_loop_fresh (heap ++ [nd]) heap.length l p fuel hchain1 hnotin
        (by simp at hfuel; omega)
    have htmem : t ∈ p :: l := List.mem_of_getLast?_eq_some h1
    have hne : heap.length ≠ t := fun h => hnotin (h ▸ htmem)
    have hchain2 := is_chain_set_tail (heap ++ [nd]) t heap.length tn nd h2 hnode hnext hne
      (p :: l) hchain1 (is_chain_nodup _ _ hchain1) h1 hnotin
    refine ⟨_, h4, ?_, ⟨rfl, hchain2⟩, ?_⟩
    · rw [List.getElem?_set, if_neg (fun h => hne h.symm)]
      exact hnode
    · have hget := list_get_loop_chain ((heap ++ [nd]).set t (linked.set_next tn (some heap.length)))
        key (l ++ [heap.length]) p fuel hchain2 (by simp at hfuel ⊢; omega)
      rw [hget]
      have hfind : List.find? (has_name ((heap ++ [nd]).set t
          (linked.set_next tn (some heap.length))) key) (p :: (l ++ [heap.length])) =
          some heap.length := by
        rw [← List.cons_append, List.find?_append]
        have hnone : List.find? (has_name ((heap ++ [nd]).set t
            (linked.set_next tn (some heap.length))) key) (p :: l) = none := by
          rw [List.find?_eq_none]
          intro x hx
          rw [has_name_set_next _ _ _ _ h2]
          have hxlt := halloc x hx
          have := hfresh x hx
          unfold has_name at this ⊢
          rw [List.getElem?_append_left hxlt]
          simp [this]
        rw [hnone]
        have hlast : has_name ((heap ++ [nd]).set t (linked.set_next tn (some heap.length)))
            key heap.length = true := by
          rw [has_name_set_next _ _ _ _ h2]
          unfold has_name
          rw [hnode]
          simpa using hname
        simp [List.find?_cons, hlast]
      rw [hfind]

/-- The node that `fset_create` returns stores the copied name and has no
successor. -/
theorem fset_create_name_next (NAME_MAX_LEN : Nat) (raw : List Nat) (tmp : SDL_Surface)
    (name : List Nat) (cols rows : Int) (surfaces : List SDL_Surface) (node : fset_t)
    (surfaces1 : List SDL_Surface)
    (h : fset_create NAME_MAX_LEN raw tmp name cols rows surfaces = some (node, surfaces1)) :
    node.name = wcsncpy raw name (NAME_MAX_LEN - 1) ∧ node.next = none := by
  unfold fset_create at h
  split at h
  · cases h
  · split at h
    · cases h
    · simp only at h
      cases hrows : fset_create_rows (Int.tdiv tmp.w cols) (Int.tdiv tmp.h rows) cols rows.toNat 0
          (List.replicate (cols * rows).toNat none) surfaces with
      | none => rw [hrows] at h; cases h
      | some r =>
        rw [hrows] at h
        simp only [Option.some.injEq, Prod.mk.injEq] at h
        obtain ⟨h1, _⟩ := h
        subst h1
        exact ⟨rfl, rfl⟩

/-- C9, as amended: for a name of fewer than `NAME_MAX_LEN - 1` wide
characters, a node made by `anim_create` or `fset_create` with that name and
added to an acyclic registry in which no node stores the name is what the
lookup of the name returns: `anim_list_add` / `fset_list_add` return, the
node is in the heap as created, and `anim_list_get` / `fset_list_get` return
its pointer. -/
theorem create_add_get_returns_node (NAME_MAX_LEN : Nat) (raw name : List Nat) (head : Nat)
    (l : List Nat) (fuel : Nat) (hname : (wcs name).length + 1 < NAME_MAX_LEN)
    (hfuel : l.length < fuel) :
    (∀ (heap : List anim_t) (len fps : Int),
      registry heap head l → (∀ p ∈ l, has_name heap name p = false) →
      ∃ heap2,
        anim_list_add fuel (alloc heap (anim_create NAME_MAX_LEN raw name len fps)).1 head
            (alloc heap (anim_create NAME_MAX_LEN raw name len fps)).2 = some heap2 ∧
          heap2[(alloc heap (anim_create NAME_MAX_LEN raw name len fps)).2]? =
            some (anim_create NAME_MAX_LEN raw name len fps) ∧
          anim_list_get fuel heap2 head name =
            some (heap2, some (alloc heap (anim_create NAME_MAX_LEN raw name len fps)).2)) ∧
    (∀ (heap : List fset_t) (tmp : SDL_Surface) (cols rows : Int)
        (surfaces surfaces1 : List SDL_Surface) (node : fset_t),
      fset_create NAME_MAX_LEN raw tmp name cols rows surfaces = some (node, surfaces1) →
      registry heap head l → (∀ p ∈ l, has_name heap name p = false) →
      ∃ heap2,
        fset_list_add fuel (alloc heap node).1 head (alloc heap node).2 = some heap2 ∧
          heap2[(alloc heap node).2]? = some node ∧
          fset_list_get fuel heap2 head name = some (heap2, some (alloc heap node).2)) := by
  have hw : wcs (wcsncpy raw name (NAME_MAX_LEN - 1)) = wcs name :=
    wcs_wcsncpy raw name (NAME_MAX_LEN - 1) (by omega)
  constructor
  · intro heap len fps hreg hfresh
    obtain ⟨heap2, h1, h2, _, h4⟩ :=
      list_add_then_get heap (anim_create NAME_MAX_LEN raw name len fps) head l name fuel hreg
        rfl hw hfresh hfuel
    exact ⟨heap2, h1, h2, h4⟩
  · intro heap tmp cols rows surfaces surfaces1 node hcreate hreg hfresh
    obtain ⟨hn, hx⟩ := fset_create_name_next _ _ _ _ _ _ _ _ _ hcreate
    obtain ⟨heap2, h1, h2, _, h4⟩ :=
      list_add_then_get heap node head l name fuel hreg hx (by
        show wcs node.name = wcs name
        rw [hn]; exact hw) hfresh hfuel
    exact ⟨heap2, h1, h2, h4⟩

/-- The name "walk" with `NAME_MAX_LEN = 32`, on name arrays that held sevens:
created, added to the registries of three nodes and looked up. -/
theorem create_add_get_returns_node_witness :
    (wcs [119, 97, 108, 107]).length + 1 < 32 ∧ [0, 2, 1].length < 4 ∧
      registry anim_registry 0 [0, 2, 1] ∧ registry fset_registry 0 [0, 2, 1] ∧
      fset_create 32 (List.replicate 32 7) scenario_image [119, 97, 108, 107] 2 1 [] =
        some (walk_fset, walk_surfaces) ∧
      (∃ heap2,
        anim_list_add 4 (alloc anim_registry
            (anim_create 32 (List.replicate 32 7) [119, 97, 108, 107] 2 2)).1 0
            (alloc anim_registry
              (anim_create 32 (List.replicate 32 7) [119, 97, 108, 107] 2 2)).2 = some heap2 ∧
          heap2[(alloc anim_registry
              (anim_create 32 (List.replicate 32 7) [119, 97, 108, 107] 2 2)).2]? =
            some (anim_create 32 (List.replicate 32 7) [119, 97, 108, 107] 2 2) ∧
          anim_list_get 4 heap2 0 [119, 97, 108, 107] =
            some (heap2, some (alloc anim_registry
              (anim_create 32 (List.replicate 32 7) [119, 97, 108, 107] 2 2)).2)) ∧
      (∃ heap2,
        fset_list_add 4 (alloc fset_registry walk_fset).1 0 (alloc fset_registry walk_fset).2 =
            some heap2 ∧
          heap2[(alloc fset_registry walk_fset).2]? = some walk_fset ∧
          fset_list_get 4 heap2 0 [119, 97, 108, 107] =
            some (heap2, some (alloc fset_registry walk_fset).2)) :=
  ⟨by decide, by decide, by decide, by decide, by decide,
   (create_add_get_returns_node 32 (List.replicate 32 7) [119, 97, 108, 107] 0 [0, 2, 1] 4
      (by decide) (by decide)).1 anim_registry 2 2 (by decide) (by decide),
   (create_add_get_returns_node 32 (List.replicate 32 7) [119, 97, 108, 107] 0 [0, 2, 1] 4
      (by decide) (by decide)).2 fset_registry scenario_image 2 1 [] walk_surfaces walk_fset
      (by decide) (by decide) (by decide)⟩

/-- C9, as stated, fails for a long name: with `NAME_MAX_LEN = 32`, an
animation created with a name of 32 wide characters and added to a registry
that holds the head node only is linked in as node 1, and the lookup of that
name returns `NULL`, with any fuel of at least two: the array stores the
first 31 characters only. -/
theorem list_get_misses_long_name :
    registry anim_head_only 0 [0] ∧
      (∀ p ∈ [0], has_name anim_head_only long_name p = false) ∧
      (wcs long_name).length = 32 ∧
      ∃ heap2,
        anim_list_add 2 (alloc anim_head_only
            (anim_create 32 (List.replicate 32 0) long_name 2 2)).1 0
            (alloc anim_head_only (anim_create 32 (List.replicate 32 0) long_name 2 2)).2 =
          some heap2 ∧
        heap2[1]? = some (anim_create 32 (List.replicate 32 0) long_name 2 2) ∧
        registry heap2 0 [0, 1] ∧
        (∀ k, anim_list_get (k + 2) heap2 0 long_name = some (heap2, none)) := by
  refine ⟨by decide, by decide, by decide, _, rfl, by decide, by decide, ?_⟩
  intro k
  have h := list_get_loop_registry
    ((alloc anim_head_only (anim_create 32 (List.replicate 32 0) long_name 2 2)).1.set 0
      { name := wcsncpy (List.replicate 32 0) [104] 31, next := some 1, len := 0, fps := 0,
        frames := [] })
    0 [0, 1] long_name (k + 2) (by simp) (by decide)
  obtain ⟨r, h1, h2, _⟩ := h
  have hr : r = none := h2.2 (by decide)
  subst hr
  exact h1

/-- The C remainder of a non-negative offset does not change when a multiple
of the positive length is added. -/
theorem tmod_add_mul_len (q len : Int) (k : Nat) (hq : 0 ≤ q) (hlen : 0 < len) :
    Int.tmod (q + (k : Int) * len) len = Int.tmod q len := by
  have hk : 0 ≤ (k : Int) * len := Int.mul_nonneg (Int.ofNat_nonneg k) (Int.le_of_lt hlen)
  rw [Int.tmod_eq_emod hq (Int.le_of_lt hlen),
    Int.tmod_eq_emod (Int.add_nonneg hq hk) (Int.le_of_lt hlen)]
  exact Int.add_mul_emod_self

/-- C4, as amended: `anim_draw` loops with period `len` in frame offsets. For
an animation with `len > 0`, two steps whose frame offsets
`(int)((step*0.01666) * fps)` are non-negative and differ by a multiple of
`len` sample the same slot. -/
theorem anim_draw_periodic_in_frame_offset (anim : anim_t) (s1 s2 : Int) (q : Int) (k : Nat)
    (hlen : 0 < anim.len) (hq : 0 ≤ q)
    (h1 : anim_frame_offset anim.fps s1 = some q)
    (h2 : anim_frame_offset anim.fps s2 = some (q + (k : Int) * anim.len)) :
    anim_draw anim s2 = anim_draw anim s1 := by
  have hk : 0 ≤ (k : Int) * anim.len :=
    Int.mul_nonneg (Int.ofNat_nonneg k) (Int.le_of_lt hlen)
  have hne : anim.len ≠ 0 := by omega
  have hm1 : ¬ (q = INT_MIN ∧ anim.len = -1) := by omega
  have hm2 : ¬ (q + (k : Int) * anim.len = INT_MIN ∧ anim.len = -1) := by omega
  unfold anim_draw anim_draw_index
  rw [h1, h2]
  simp only [if_neg hne, if_neg hm1, if_neg hm2]
  rw [tmod_add_mul_len q anim.len k hq hlen]

/-- At 2 fps and length 2, steps 0 and 61 have the frame offsets 0 and 2 and
sample the same slot. -/
theorem anim_draw_periodic_in_frame_offset_witness :
    (0 : Int) < anim_two_fps.len ∧ (0 : Int) ≤ 0 ∧
      anim_frame_offset anim_two_fps.fps 0 = some 0 ∧
      anim_frame_offset anim_two_fps.fps 61 = some (0 + ((1 : Nat) : Int) * anim_two_fps.len) ∧
      anim_draw anim_two_fps 61 = anim_draw anim_two_fps 0 :=
  ⟨by decide, by decide, by decide, by decide,
   anim_draw_periodic_in_frame_offset anim_two_fps 0 61 0 1 (by decide) (by decide)
     (by decide) (by decide)⟩

/-- C4, as stated, fails: for the animation of length 2 at 7 fps the period
of the claim is `ceil(2 / (7/60)) = 18` steps, and `anim_draw` samples
`frames[0]` at step 25 and `frames[1]` at step 25 + 1 * 18; the frame index
`floor(s * fps / 60) mod len` differs at these two steps as well. -/
theorem anim_draw_not_periodic_at_seven_fps :
    (60 * 2 + 7 - 1) / 7 = 18 ∧
      anim_draw anim_seven_fps 25 = some (some 0) ∧
      anim_draw anim_seven_fps (25 + 1 * 18) = some (some 1) ∧
      anim_draw anim_seven_fps 25 ≠ anim_draw anim_seven_fps (25 + 1 * 18) ∧
      ((25 * 7 / 60) % 2 : Int) = 0 ∧ (((25 + 1 * 18) * 7 / 60) % 2 : Int) = 1 := by
  decide

/-- An enemy whose counter is positive leaves its iteration with the counter
one less and nothing else changed. -/
theorem game_check_enemies_body_flashing (env : env_t) (e : enemy_t) (player : player_t)
    (h : 0 < e.flashing) :
    (game_check_enemies_body env e player).1 = { e with flashing := e.flashing - 1 } ∧
      "Enemy hit by player.\n" ∉ (game_check_enemies_body env e player).2.2 := by
  unfold game_check_enemies_body
  simp only [if_pos h, List.nil_append]
  refine ⟨trivial, ?_⟩
  split
  · split
    · simp
    · simp
  · simp

/-- Every line printed by the loop carries the position of an enemy at or
after the position the loop started from. -/
theorem game_check_enemies_loop_positions (env : env_t) :
    ∀ (es : List enemy_t) (i : Nat) (player : player_t) (x : Nat × String),
      x ∈ (game_check_enemies_loop env es i player).2.2 → i ≤ x.1 := by
  intro es
  induction es with
  | nil => intro i player x hx; simp [game_check_enemies_loop] at hx
  | cons e es ih =>
    intro i player x hx
    simp only [game_check_enemies_loop, List.mem_append, List.mem_map] at hx
    rcases hx with ⟨s, _, rfl⟩ | hx
    · exact Nat.le_refl i
    · exact Nat.le_trans (Nat.le_succ i) (ih (i + 1) _ x hx)

/-- In one run of the loop, an enemy whose counter is positive ends with the
counter one less, and no hit on it is printed. -/
theorem game_check_enemies_loop_flashing (env : env_t) :
    ∀ (es : List enemy_t) (i : Nat) (player : player_t) (j : Nat) (e : enemy_t),
      es[j]? = some e → 0 < e.flashing →
      (game_check_enemies_loop env es i player).1[j]? =
          some { e with flashing := e.flashing - 1 } ∧
        (i + j, "Enemy hit by player.\n") ∉ (game_check_enemies_loop env es i player).2.2 := by
  intro es
  induction es with
  | nil => intro i player j e hj; simp at hj
  | cons e0 es ih =>
    intro i player j e hj hpos
    cases j with
    | zero =>
      simp only [List.getElem?_cons_zero, Option.some.injEq] at hj
      subst hj
      obtain ⟨hb1, hb2⟩ := game_check_enemies_body_flashing env e0 player hpos
      refine ⟨?_, ?_⟩
      · simp only [game_check_enemies_loop, List.getElem?_cons_zero, hb1]
      · simp only [game_check_enemies_loop, List.mem_append, List.mem_map, not_or]
        refine ⟨?_, ?_⟩
        · rintro ⟨s, hs, hx⟩
          simp only [Nat.add_zero, Prod.mk.injEq, true_and] at hx
          subst hx
          exact hb2 hs
        · intro hx
          have := game_check_enemies_loop_positions env es (i + 1) _ _ hx
          simp at this
    | succ j =>
      simp only [List.getElem?_cons_succ] at hj
      obtain ⟨h1, h2⟩ := ih (i + 1) (game_check_enemies_body env e0 player).2.1 j e hj hpos
      refine ⟨?_, ?_⟩
      · simp only [game_check_enemies_loop, List.getElem?_cons_succ]
        exact h1
      · simp only [game_check_enemies_loop, List.mem_append, List.mem_map, not_or]
        refine ⟨?_, ?_⟩
        · rintro ⟨s, _, hx⟩
          simp only [Prod.mk.injEq] at hx
          omega
        · have he : i + (j + 1) = i + 1 + j := by omega
          rw [he]
          exact h2

/-- After `j` passes an enemy whose counter was at least `j` has the counter
`j` less. -/
theorem check_passes_flashing (env : env_t) (i : Nat) :
    ∀ (j : Nat) (game : game_t) (e : enemy_t), game.enemies[i]? = some e →
      (j : Int) ≤ e.flashing →
      (check_passes env j game).enemies[i]? = some { e with flashing := e.flashing - (j : Int) } := by
  intro j
  induction j with
  | zero =>
    intro game e hi _
    simp only [check_passes, hi, Nat.cast_zero, Int.sub_zero]
  | succ j ih =>
    intro game e hi hj
    have hpos : 0 < e.flashing := by omega
    have h1 := (game_check_enemies_loop_flashing env game.enemies 0 game.player i e hi hpos).1
    have h2 := ih (game_check_enemies env game) { e with flashing := e.flashing - 1 } h1
      (by simp only; omega)
    simp only [check_passes]
    rw [h2]
    have : e.flashing - 1 - (j : Int) = e.flashing - ((j + 1 : Nat) : Int) := by omega
    simp only [this]

/-- C5: in one pass of `game_check_enemies`, an enemy whose invulnerability
counter is positive at the start of the pass ends the pass with the counter
exactly one less and nothing else changed, and no line "Enemy hit by player."
is printed in its iteration, whatever its hitbox overlaps; after `j` passes
the counter is `j` less, for every `j` up to the counter, so a counter of
`n > 0` is positive after fewer than `n` passes and 0 after `n`. -/
theorem game_check_enemies_flashing_enemy (env : env_t) (game : game_t) (i : Nat) (e : enemy_t)
    (hi : game.enemies[i]? = some e) (hpos : 0 < e.flashing) :
    (game_check_enemies env game).enemies[i]? = some { e with flashing := e.flashing - 1 } ∧
      (i, "Enemy hit by player.\n") ∉
        (game_check_enemies_loop env game.enemies 0 game.player).2.2 ∧
      (∀ j : Nat, (j : Int) ≤ e.flashing →
        (check_passes env j game).enemies[i]? =
          some { e with flashing := e.flashing - (j : Int) }) ∧
      (check_passes env e.flashing.toNat game).enemies[i]? = some { e with flashing := 0 } := by
  obtain ⟨h1, h2⟩ := game_check_enemies_loop_flashing env game.enemies 0 game.player i e hi hpos
  refine ⟨h1, by simpa using h2, fun j hj => check_passes_flashing env i j game e hi hj, ?_⟩
  have h3 := check_passes_flashing env i e.flashing.toNat game e hi (by omega)
  rw [h3]
  have : e.flashing - (e.flashing.toNat : Int) = 0 := by omega
  simp only [this]

/-- The first enemy of `flashing_game`: counter 3, hitbox under the player's
weapon. -/
theorem game_check_enemies_flashing_enemy_witness :
    flashing_game.enemies[0]? =
        some { flashing := 3, rect := { x := 12, y := 2, w := 10, h := 10 },
               weapon := { x := 40, y := 0, w := 4, h := 4 } } ∧
      (0 : Int) < 3 ∧
      still_env.rect_overlap { x := 12, y := 2, w := 10, h := 10 } flashing_game.player.weapon =
        true ∧
      (game_check_enemies still_env flashing_game).enemies[0]? =
        some { flashing := 3 - 1, rect := { x := 12, y := 2, w := 10, h := 10 },
               weapon := { x := 40, y := 0, w := 4, h := 4 } } ∧
      (0, "Enemy hit by player.\n") ∉
        (game_check_enemies_loop still_env flashing_game.enemies 0 flashing_game.player).2.2 ∧
      (check_passes still_env 3 flashing_game).enemies[0]? =
        some { flashing := 0, rect := { x := 12, y := 2, w := 10, h := 10 },
               weapon := { x := 40, y := 0, w := 4, h := 4 } } := by
  have h := game_check_enemies_flashing_enemy still_env flashing_game 0
    { flashing := 3, rect := { x := 12, y := 2, w := 10, h := 10 },
      weapon := { x := 40, y := 0, w := 4, h := 4 } } rfl (by decide)
  exact ⟨rfl, by decide, by decide, h.1, h.2.1, h.2.2.2⟩

/-- The MENU branch leaves the mode as it was unless it activates an entry
bound to `game_new_game`, and then the mode is PLAY. -/
theorem game_fast_frame_menu_mode (env : env_t) (game : game_t) :
    (game_fast_frame_menu env game).mode =
      if activates_new_game env game then MODE_PLAY else game.mode := by
  unfold game_fast_frame_menu activates_new_game menu_after_moves menu_activate
  by_cases hU : controller_just_pressed game.controller button.BTN_U = true <;>
  by_cases hD : controller_just_pressed game.controller button.BTN_D = true <;>
  by_cases hA : controller_just_pressed game.controller button.BTN_A = true <;>
  simp only [hU, hD, hA, if_true, if_false, Bool.true_and, Bool.false_and, Bool.false_eq_true] <;>
  first
  | rfl
  | (split <;> rename_i hopt <;> simp only [hopt] <;>
      first
      | rfl
      | (rename_i h; cases h <;> simp [call_handler, game_exit, game_new_game, game_load_game,
          game_options_menu]))

/-- The loop of `game_update_enemies` writes the enemies only. -/
theorem game_update_enemies_loop_frame (env : env_t) :
    ∀ (n i : Nat) (game : game_t),
      (game_update_enemies_loop env n i game).player = game.player ∧
        (game_update_enemies_loop env n i game).mode = game.mode ∧
        (game_update_enemies_loop env n i game).controller = game.controller ∧
        (game_update_enemies_loop env n i game).targets = game.targets := by
  intro n
  induction n with
  | zero => intro i game; exact ⟨rfl, rfl, rfl, rfl⟩
  | succ n ih =>
    intro i game
    unfold game_update_enemies_loop
    cases game.enemies[i]? with
    | none => exact ⟨rfl, rfl, rfl, rfl⟩
    | some e => exact ih (i + 1) _

/-- The player after the loop of `game_check_enemies`: the counter is 60 when
it was zero and the weapon of some enemy overlaps the body, and is as before
otherwise; the rectangles are as before. -/
theorem game_check_enemies_loop_player (env : env_t) :
    ∀ (es : List enemy_t) (i : Nat) (player : player_t),
      (game_check_enemies_loop env es i player).2.1 =
        { player with
          flashing :=
            if player.flashing = 0 ∧
                es.any (fun e => env.rect_overlap e.weapon player.body.rect) = true then 60
            else player.flashing } := by
  intro es
  induction es with
  | nil => intro i player; simp [game_check_enemies_loop]
  | cons e es ih =>
    intro i player
    simp only [game_check_enemies_loop]
    rw [ih]
    have hw : (if 0 < e.flashing then (({ e with flashing := e.flashing - 1 } : enemy_t),
          ([] : List String))
        else if env.rect_overlap e.rect player.weapon = true then
          ({ e with flashing := 15 }, ["Enemy hit by player.\n"])
        else (e, [])).1.weapon = e.weapon := by
      split
      · rfl
      · split <;> rfl
    unfold game_check_enemies_body
    simp only [hw]
    by_cases hz : player.flashing = 0
    · by_cases ho : env.rect_overlap e.weapon player.body.rect = true
      · simp [hz, ho]
      · simp [hz, ho]
    · simp [hz]

/-- Under actions that keep the player's counter and the mode, so does the
loop of `game_check_targets`. -/
theorem game_check_targets_loop_frame (env : env_t)
    (hact : ∀ a t g, (env.action a t g).player.flashing = g.player.flashing ∧
      (env.action a t g).mode = g.mode) :
    ∀ (ts : List target_t) (i : Nat) (game : game_t),
      (game_check_targets_loop env ts i game).1.player.flashing = game.player.flashing ∧
        (game_check_targets_loop env ts i game).1.mode = game.mode := by
  intro ts
  induction ts with
  | nil => intro i game; exact ⟨rfl, rfl⟩
  | cons t ts ih =>
    intro i game
    unfold game_check_targets_loop
    split
    · split
      · obtain ⟨h1, h2⟩ := ih (i + 1) (env.action t.action t game)
        obtain ⟨h3, h4⟩ := hact t.action t game
        exact ⟨h1.trans h3, h2.trans h4⟩
      · exact ih (i + 1) game
    · exact ih (i + 1) game

/-- A logic step in PLAY mode is the PLAY branch: the collision and target
checks on the game that `player_update` and `game_update_enemies` left. -/
theorem game_fast_frame_play_mode (env : env_t) (game : game_t) (hmode : game.mode = MODE_PLAY) :
    game_fast_frame env game =
      game_check_targets env (game_check_enemies env (game_before_checks env game)) := by
  have hne : ¬ (game.mode = MODE_MENU) := by rw [hmode]; decide
  unfold game_fast_frame game_fast_frame_traced
  simp only [if_neg hne, if_pos hmode]
  rfl

/-- The game before the checks of a PLAY step: the player's counter is
decremented when positive, the mode is as before. -/
theorem game_before_checks_frame (env : env_t) (game : game_t) :
    (game_before_checks env game).player.flashing =
        (if 0 < game.player.flashing then game.player.flashing - 1 else game.player.flashing) ∧
      (game_before_checks env game).mode = game.mode := by
  unfold game_before_checks game_update_enemies
  obtain ⟨h1, h2, _, _⟩ := game_update_enemies_loop_frame env
    ({ game with
        step := (game.step + 1) % 2 ^ 32,
        player := player_update env game.player
          { game with step := (game.step + 1) % 2 ^ 32 } } : game_t).enemies.length 0
    { game with
      step := (game.step + 1) % 2 ^ 32,
      player := player_update env game.player { game with step := (game.step + 1) % 2 ^ 32 } }
  rw [h1, h2]
  exact ⟨rfl, rfl⟩

/-- The player's counter after a logic step in PLAY mode. -/
theorem game_fast_frame_player_flashing (env : env_t) (game : game_t)
    (hmode : game.mode = MODE_PLAY)
    (hact : ∀ a t g, (env.action a t g).player.flashing = g.player.flashing ∧
      (env.action a t g).mode = g.mode) :
    (game_fast_frame env game).player.flashing =
        (if (game_before_checks env game).player.flashing = 0 ∧
            (game_before_checks env game).enemies.any
              (fun e => env.rect_overlap e.weapon
                (game_before_checks env game).player.body.rect) = true then 60
          else (game_before_checks env game).player.flashing) ∧
      (game_fast_frame env game).mode = MODE_PLAY := by
  rw [game_fast_frame_play_mode env game hmode]
  unfold game_check_targets
  obtain ⟨h1, h2⟩ := game_check_targets_loop_frame env hact
    (game_check_enemies env (game_before_checks env game)).targets 0
    (game_check_enemies env (game_before_checks env game))
  rw [h1, h2]
  unfold game_check_enemies
  simp only []
  rw [game_check_enemies_loop_player]
  exact ⟨rfl, (game_before_checks_frame env game).2.trans hmode⟩

/-- While the player's counter exceeds the number of steps, each logic step
in PLAY mode takes one off it. -/
theorem logic_steps_countdown (env : env_t)
    (hact : ∀ a t g, (env.action a t g).player.flashing = g.player.flashing ∧
      (env.action a t g).mode = g.mode) :
    ∀ (inputs : List controller_t) (game : game_t), game.mode = MODE_PLAY →
      (inputs.length : Int) < game.player.flashing →
      (logic_steps env inputs game).player.flashing =
          game.player.flashing - (inputs.length : Int) ∧
        (logic_steps env inputs game).mode = MODE_PLAY := by
  intro inputs
  induction inputs with
  | nil => intro game hmode _; simp [logic_steps, hmode]
  | cons c cs ih =>
    intro game hmode hlen
    simp only [List.length_cons, Nat.cast_add, Nat.cast_one] at hlen
    obtain ⟨h1, h2⟩ := game_fast_frame_player_flashing env { game with controller := c } hmode hact
    obtain ⟨h3, _⟩ := game_before_checks_frame env { game with controller := c }
    have hpos : 0 < game.player.flashing := by omega
    have h3b : (game_before_checks env { game with controller := c }).player.flashing =
        game.player.flashing - 1 := by
      rw [h3]; exact if_pos hpos
    have hnz : ¬ ((game_before_checks env { game with controller := c }).player.flashing = 0 ∧
        (game_before_checks env { game with controller := c }).enemies.any
          (fun e => env.rect_overlap e.weapon
            (game_before_checks env { game with controller := c }).player.body.rect) = true) := by
      rw [h3b]
      intro h
      omega
    rw [if_neg hnz, h3b] at h1
    obtain ⟨h4, h5⟩ := ih (game_fast_frame env { game with controller := c }) h2
      (by rw [h1]; omega)
    simp only [logic_steps, List.length_cons, Nat.cast_add, Nat.cast_one]
    rw [h4, h1]
    exact ⟨by omega, h5⟩

/-- Logic steps for a list of inputs followed by one more input. -/
theorem logic_steps_append (env : env_t) (c : controller_t) :
    ∀ (inputs : List controller_t) (game : game_t),
      logic_steps env (inputs ++ [c]) game =
        game_fast_frame env { logic_steps env inputs game with controller := c } := by
  intro inputs
  induction inputs with
  | nil => intro game; rfl
  | cons d ds ih => intro game; exact ih _

/-- C6: from a PLAY-mode game whose player counter is 60, after 59 logic
steps the counter is 1 (no overlap is looked at while it is positive); in the
60th step the counter comes to 0 before the collision checks, and after the
step it is 60 again when the weapon of some enemy overlaps the player's body
in that step, and 0 when none does. Target actions are taken to keep the
player's counter and the mode. -/
theorem player_counter_sixty_steps (env : env_t) (game : game_t) (inputs : List controller_t)
    (c60 : controller_t) (hmode : game.mode = MODE_PLAY) (hflash : game.player.flashing = 60)
    (hlen : inputs.length = 59)
    (hact : ∀ a t g, (env.action a t g).player.flashing = g.player.flashing ∧
      (env.action a t g).mode = g.mode) :
    (logic_steps env inputs game).player.flashing = 1 ∧
      (game_before_checks env
        { logic_steps env inputs game with controller := c60 }).player.flashing = 0 ∧
      (logic_steps env (inputs ++ [c60]) game).player.flashing =
        if (game_before_checks env
              { logic_steps env inputs game with controller := c60 }).enemies.any
            (fun e => env.rect_overlap e.weapon
              (game_before_checks env
                { logic_steps env inputs game with controller := c60 }).player.body.rect) = true
        then 60 else 0 := by
  obtain ⟨h1, h2⟩ := logic_steps_countdown env hact inputs game hmode (by rw [hflash, hlen]; decide)
  rw [hflash, hlen] at h1
  have h59 : (logic_steps env inputs game).player.flashing = 1 := by rw [h1]; decide
  obtain ⟨h3, _⟩ := game_before_checks_frame env
    { logic_steps env inputs game with controller := c60 }
  have h4 : (game_before_checks env
      { logic_steps env inputs game with controller := c60 }).player.flashing = 0 := by
    rw [h3]
    show (if 0 < (logic_steps env inputs game).player.flashing then
      (logic_steps env inputs game).player.flashing - 1
      else (logic_steps env inputs game).player.flashing) = 0
    rw [h59]; decide
  refine ⟨h59, h4, ?_⟩
  rw [logic_steps_append]
  obtain ⟨h5, _⟩ := game_fast_frame_player_flashing env
    { logic_steps env inputs game with controller := c60 } h2 hact
  rw [h5, h4]
  simp

set_option maxRecDepth 1000000 in
/-- The scenario on `hit_game`: 59 idle steps, then a step with `BTN_X`
pressed on a target, with the player in the weapon of the enemy; the counter
is 1 after 59 steps and 60 after the 60th. -/
theorem player_counter_sixty_steps_witness :
    hit_game.mode = MODE_PLAY ∧ hit_game.player.flashing = 60 ∧
      (List.replicate 59 idle).length = 59 ∧
      (logic_steps still_env (List.replicate 59 idle) hit_game).player.flashing = 1 ∧
      (game_before_checks still_env
        { logic_steps still_env (List.replicate 59 idle) hit_game with
          controller := { previous := [], current := [button.BTN_X] } }).player.flashing = 0 ∧
      (logic_steps still_env
          (List.replicate 59 idle ++ [{ previous := [], current := [button.BTN_X] }])
          hit_game).player.flashing =
        (if (game_before_checks still_env
              { logic_steps still_env (List.replicate 59 idle) hit_game with
                controller := { previous := [], current := [button.BTN_X] } }).enemies.any
            (fun e => still_env.rect_overlap e.weapon
              (game_before_checks still_env
                { logic_steps still_env (List.replicate 59 idle) hit_game with
                  controller :=
                    { previous := [], current := [button.BTN_X] } }).player.body.rect) = true
        then 60 else 0) ∧
      (logic_steps still_env
          (List.replicate 59 idle ++ [{ previous := [], current := [button.BTN_X] }])
          hit_game).player.flashing = 60 :=
  ⟨by decide, by decide, by decide,
   (player_counter_sixty_steps still_env hit_game (List.replicate 59 idle)
     { previous := [], current := [button.BTN_X] } (by decide) (by decide) (by decide)
     (fun _ _ _ => ⟨rfl, rfl⟩)).1,
   (player_counter_sixty_steps still_env hit_game (List.replicate 59 idle)
     { previous := [], current := [button.BTN_X] } (by decide) (by decide) (by decide)
     (fun _ _ _ => ⟨rfl, rfl⟩)).2.1,
   (player_counter_sixty_steps still_env hit_game (List.replicate 59 idle)
     { previous := [], current := [button.BTN_X] } (by decide) (by decide) (by decide)
     (fun _ _ _ => ⟨rfl, rfl⟩)).2.2,
   by decide⟩

/-- Reading the frame array after `k` assignments. -/
theorem sliced_frames_getElem (n0 L k j : Nat) (hk : k ≤ L) :
    (sliced_frames n0 L k)[j]? =
      if j < k then some (some (n0 + j)) else if j < L then some none else none := by
  unfold sliced_frames
  rw [List.getElem?_append]
  simp only [List.length_map, List.length_range']
  by_cases h1 : j < k
  · simp [h1, List.getElem?_range']
  · simp only [h1, if_false]
    by_cases h2 : j < L
    · rw [if_pos h2]
      have : j - k < L - k := by omega
      simp [List.getElem?_replicate, this]
    · rw [if_neg h2]
      have : ¬ (j - k < L - k) := by omega
      simp [List.getElem?_replicate, this]

/-- Assigning slot `k` the next pointer. -/
theorem sliced_frames_set (n0 L k : Nat) (hk : k < L) :
    (sliced_frames n0 L k).set k (some (n0 + k)) = sliced_frames n0 L (k + 1) := by
  apply List.ext_getElem?
  intro j
  rw [List.getElem?_set, sliced_frames_getElem n0 L k j (by omega),
    sliced_frames_getElem n0 L (k + 1) j (by omega)]
  have hlen : (sliced_frames n0 L k).length = L := by
    unfold sliced_frames
    simp
    omega
  rw [hlen]
  by_cases h : k = j
  · subst h
    simp [hk]
  · rw [if_neg h]
    by_cases h1 : j < k
    · have h2 : j < k + 1 := by omega
      simp [h1, h2]
    · have h2 : ¬ j < k + 1 := by omega
      simp [h1, h2]

/-- The inner loop of `fset_create`, started at column `c` of row `r` with
the slots before `r * cols + c` assigned, assigns the rest of the row. -/
theorem fset_create_cols_spec (w h : Int) (C : Nat) (r : Nat) (n0 L : Nat)
    (surfaces : List SDL_Surface) (hn0 : surfaces.length = n0) (hL : (r + 1) * C ≤ L) :
    ∀ (n c : Nat), c + n = C →
      fset_create_cols w h (C : Int) (r : Int) n (c : Int)
          (sliced_frames n0 L (r * C + c))
          (surfaces ++ (List.range (r * C + c)).map (sliced_frame w h C)) =
        some (sliced_frames n0 L (r * C + C),
              surfaces ++ (List.range (r * C + C)).map (sliced_frame w h C)) := by
  intro n
  induction n with
  | zero =>
    intro c hc
    have : c = C := by omega
    subst this
    rfl
  | succ n ih =>
    intro c hc
    have hcC : c < C := by omega
    have hk : r * C + c < L := by
      have : (r + 1) * C = r * C + C := by ring
      omega
    have hidx : ((c : Int) + (r : Int) * (C : Int)) = ((r * C + c : Nat) : Int) := by
      push_cast; ring
    have hlenf : (sliced_frames n0 L (r * C + c)).length = L := by
      unfold sliced_frames
      simp
      omega
    have hlens : (surfaces ++ (List.range (r * C + c)).map (sliced_frame w h C)).length =
        n0 + (r * C + c) := by
      simp [hn0]
    have hset : array_set (sliced_frames n0 L (r * C + c)) ((c : Int) + (r : Int) * (C : Int))
        (some (n0 + (r * C + c))) = some (sliced_frames n0 L (r * C + c + 1)) := by
      unfold array_set
      rw [hidx]
      rw [if_pos ⟨by omega, by rw [hlenf]; simpa using hk⟩]
      simp only [Int.toNat_ofNat]
      rw [sliced_frames_set n0 L (r * C + c) hk]
    have hmod : (r * C + c) % C = c := by
      rw [Nat.add_comm, Nat.add_mul_mod_self_right]
      exact Nat.mod_eq_of_lt hcC
    have hdiv : (r * C + c) / C = r := by
      rw [Nat.add_comm, Nat.add_mul_div_right _ _ (by omega : 0 < C)]
      rw [Nat.div_eq_of_lt hcC]
      omega
    have hframe : SDL_Surface.mk w h (some (SDL_Rect.mk ((c : Int) * w) ((r : Int) * h) w h)) =
        sliced_frame w h C (r * C + c) := by
      unfold sliced_frame
      rw [hmod, hdiv]
    have hsurf : (surfaces ++ (List.range (r * C + c)).map (sliced_frame w h C)) ++
        [sliced_frame w h C (r * C + c)] =
        surfaces ++ (List.range (r * C + (c + 1))).map (sliced_frame w h C) := by
      have : r * C + (c + 1) = (r * C + c) + 1 := by omega
      rw [this, List.range_succ, List.map_append, List.append_assoc]
      rfl
    have hnext := ih (c + 1) (by omega)
    have hc1 : ((c + 1 : Nat) : Int) = (c : Int) + 1 := by push_cast; rfl
    rw [hc1] at hnext
    unfold fset_create_cols
    simp only [hlens, hset, hframe]
    rw [hsurf]
    have : r * C + c + 1 = r * C + (c + 1) := by omega
    rw [this]
    exact hnext

/-- The outer loop of `fset_create`, started at row `r` with the slots of the
rows before assigned, assigns the slots of all `R` rows. -/
theorem fset_create_rows_spec (w h : Int) (C R : Nat) (n0 L : Nat)
    (surfaces : List SDL_Surface) (hn0 : surfaces.length = n0) (hL : R * C ≤ L) :
    ∀ (n r : Nat), r + n = R →
      fset_create_rows w h (C : Int) n (r : Int)
          (sliced_frames n0 L (r * C))
          (surfaces ++ (List.range (r * C)).map (sliced_frame w h C)) =
        some (sliced_frames n0 L (R * C),
              surfaces ++ (List.range (R * C)).map (sliced_frame w h C)) := by
  intro n
  induction n with
  | zero =>
    intro r hr
    have : r = R := by omega
    subst this
    rfl
  | succ n ih =>
    intro r hr
    have hrow : (r + 1) * C ≤ L := by
      have : (r + 1) * C ≤ R * C := Nat.mul_le_mul_right C (by omega)
      omega
    have hcols := fset_create_cols_spec w h C r n0 L surfaces hn0 hrow C 0 (by omega)
    simp only [Nat.add_zero, Nat.cast_zero] at hcols
    have hnext := ih (r + 1) (by omega)
    have hr1 : ((r + 1 : Nat) : Int) = (r : Int) + 1 := by push_cast; rfl
    have hmul : (r + 1) * C = r * C + C := by ring
    rw [hr1, hmul] at hnext
    unfold fset_create_rows
    simp only [Int.toNat_ofNat, hcols]
    exact hnext

/-- What `fset_create` returns on a grid of `C > 0` columns and `R > 0` rows
whose product fits an `int`: slot `k` holds the `k`-th surface allocated,
which is the frame of column `k % C` and row `k / C`. -/
theorem fset_create_spec (NAME_MAX_LEN : Nat) (raw : List Nat) (tmp : SDL_Surface)
    (name : List Nat) (C R : Nat) (surfaces : List SDL_Surface) (hC : 0 < C) (hR : 0 < R)
    (hfit : ((C * R : Nat) : Int) ≤ INT_MAX) :
    fset_create NAME_MAX_LEN raw tmp name (C : Int) (R : Int) surfaces =
      some ({ name := wcsncpy raw name (NAME_MAX_LEN - 1), next := none,
              len := ((C * R : Nat) : Int),
              frames := (List.range' surfaces.length (C * R)).map some },
            surfaces ++ (List.range (C * R)).map
              (sliced_frame (Int.tdiv tmp.w (C : Int)) (Int.tdiv tmp.h (R : Int)) C)) := by
  have h0 : ¬ ((C : Int) = 0 ∨ (R : Int) = 0) := by omega
  have hprod : (C : Int) * (R : Int) = ((C * R : Nat) : Int) := by push_cast; rfl
  have h1 : ¬ ((C : Int) * (R : Int) < INT_MIN ∨ INT_MAX < (C : Int) * (R : Int)) := by
    rw [hprod]
    unfold INT_MIN
    omega
  have hrows := fset_create_rows_spec (Int.tdiv tmp.w (C : Int)) (Int.tdiv tmp.h (R : Int)) C R
    surfaces.length (C * R) surfaces rfl (by rw [Nat.mul_comm]) R 0 (by omega)
  simp only [Nat.zero_mul, Nat.cast_zero, List.range_zero, List.map_nil,
    List.append_nil] at hrows
  have hinit : sliced_frames surfaces.length (C * R) 0 = List.replicate (C * R) none := by
    simp [sliced_frames]
  have hfinal : sliced_frames surfaces.length (C * R) (R * C) =
      (List.range' surfaces.length (C * R)).map some := by
    simp [sliced_frames, Nat.mul_comm]
  rw [hinit, hfinal] at hrows
  unfold fset_create
  rw [if_neg h0, if_neg h1]
  simp only [hprod, Int.toNat_ofNat, hrows, Nat.mul_comm R C]

/-- C11, as amended: when `cols > 0`, `rows > 0` and `cols * rows` fits an
`int`, `fset_create` returns a frameset of `len = cols * rows` frames; the
slot `c + r * cols`, for every column `c < cols` and row `r < rows`, holds a
surface allocated by the call, of width `W / cols` and height `H / rows`,
blitted from the source rectangle of that size at
`(c * (W / cols), r * (H / rows))`. -/
theorem fset_create_slices_image (NAME_MAX_LEN : Nat) (raw : List Nat) (tmp : SDL_Surface)
    (name : List Nat) (cols rows : Int) (surfaces : List SDL_Surface)
    (hcols : 0 < cols) (hrows : 0 < rows) (hfit : cols * rows ≤ INT_MAX) :
    ∃ frameset surfaces1,
      fset_create NAME_MAX_LEN raw tmp name cols rows surfaces = some (frameset, surfaces1) ∧
      frameset.len = cols * rows ∧
      (frameset.frames.length : Int) = cols * rows ∧
      ∀ c r : Int, 0 ≤ c → c < cols → 0 ≤ r → r < rows →
        ∃ p, array_get frameset.frames (c + r * cols) = some (some p) ∧
          surfaces.length ≤ p ∧
          surfaces1[p]? =
            some (SDL_Surface.mk (Int.tdiv tmp.w cols) (Int.tdiv tmp.h rows)
              (some (SDL_Rect.mk (c * Int.tdiv tmp.w cols) (r * Int.tdiv tmp.h rows)
                (Int.tdiv tmp.w cols) (Int.tdiv tmp.h rows)))) := by
  obtain ⟨C, rfl⟩ : ∃ C : Nat, cols = (C : Int) := ⟨cols.toNat, by omega⟩
  obtain ⟨R, rfl⟩ : ∃ R : Nat, rows = (R : Int) := ⟨rows.toNat, by omega⟩
  have hC : 0 < C := by omega
  have hR : 0 < R := by omega
  have hprod : (C : Int) * (R : Int) = ((C * R : Nat) : Int) := by push_cast; rfl
  have hspec := fset_create_spec NAME_MAX_LEN raw tmp name C R surfaces hC hR
    (by rw [← hprod]; exact hfit)
  refine ⟨_, _, hspec, by simp only; exact hprod.symm,
    by simp only [List.length_map, List.length_range']; exact hprod.symm, ?_⟩
  intro c r hc0 hc hr0 hr
  obtain ⟨cn, rfl⟩ : ∃ cn : Nat, c = (cn : Int) := ⟨c.toNat, by omega⟩
  obtain ⟨rn, rfl⟩ : ∃ rn : Nat, r = (rn : Int) := ⟨r.toNat, by omega⟩
  have hcn : cn < C := by omega
  have hrn : rn < R := by omega
  have hk : rn * C + cn < C * R := by
    have h1 : (rn + 1) * C ≤ R * C := Nat.mul_le_mul_right C (by omega)
    have h2 : (rn + 1) * C = rn * C + C := by ring
    have h3 : R * C = C * R := Nat.mul_comm R C
    omega
  have hidx : ((cn : Int) + (rn : Int) * (C : Int)) = ((rn * C + cn : Nat) : Int) := by
    push_cast; ring
  have hmod : (rn * C + cn) % C = cn := by
    rw [Nat.add_comm, Nat.add_mul_mod_self_right]
    exact Nat.mod_eq_of_lt hcn
  have hdiv : (rn * C + cn) / C = rn := by
    rw [Nat.add_comm, Nat.add_mul_div_right _ _ hC, Nat.div_eq_of_lt hcn]
    omega
  refine ⟨surfaces.length + (rn * C + cn), ?_, by omega, ?_⟩
  · unfold array_get
    rw [hidx, if_pos (by omega)]
    simp only [Int.toNat_ofNat]
    simp [List.getElem?_range', hk]
  · rw [List.getElem?_append_right (by omega)]
    simp only [Nat.add_sub_cancel_left]
    rw [List.getElem?_map, List.getElem?_range hk]
    simp only [Option.map_some', sliced_frame, hmod, hdiv]

/-- The scenario of the specification: a 64 x 32 image with two columns and
one row gives two 32 x 32 frames taken at x = 0 and x = 32. -/
theorem fset_create_slices_image_witness :
    ((0 : Int) < 2 ∧ (0 : Int) < 1 ∧ (2 : Int) * 1 ≤ INT_MAX) ∧
      (∃ frameset surfaces1,
        fset_create 32 (List.replicate 32 7) scenario_image [119, 97, 108, 107] 2 1 [] =
          some (frameset, surfaces1) ∧
        frameset.len = 2 * 1 ∧
        (frameset.frames.length : Int) = 2 * 1 ∧
        ∀ c r : Int, 0 ≤ c → c < 2 → 0 ≤ r → r < 1 →
          ∃ p, array_get frameset.frames (c + r * 2) = some (some p) ∧
            ([] : List SDL_Surface).length ≤ p ∧
            surfaces1[p]? =
              some (SDL_Surface.mk (Int.tdiv scenario_image.w 2) (Int.tdiv scenario_image.h 1)
                (some (SDL_Rect.mk (c * Int.tdiv scenario_image.w 2)
                  (r * Int.tdiv scenario_image.h 1)
                  (Int.tdiv scenario_image.w 2) (Int.tdiv scenario_image.h 1))))) ∧
      fset_create 32 (List.replicate 32 7) scenario_image [119, 97, 108, 107] 2 1 [] =
        some (walk_fset, walk_surfaces) ∧
      walk_surfaces =
        [SDL_Surface.mk 32 32 (some (SDL_Rect.mk 0 0 32 32)),
         SDL_Surface.mk 32 32 (some (SDL_Rect.mk 32 0 32 32))] :=
  ⟨by decide,
   fset_create_slices_image 32 (List.replicate 32 7) scenario_image [119, 97, 108, 107] 2 1 []
     (by decide) (by decide) (by decide),
   by decide, by decide⟩

/-- C11, as stated, fails when the product of the grid dimensions does not
fit an `int`: with `cols = rows = 65536` the assignment
`frameset->len = cols * rows` overflows and `fset_create` has no defined
result, where the claim announces 65536 * 65536 frames. -/
theorem fset_create_overflows_on_large_grid :
    (0 : Int) < 65536 ∧ INT_MAX < (65536 : Int) * 65536 ∧
      fset_create 32 (List.replicate 32 0) scenario_image [119, 97, 108, 107] 65536 65536 [] =
        none := by
  decide

/-- The index map of the slicing loops, `(c, r) -> c + r * cols`, is a
bijection from `[0, cols) x [0, rows)` onto `[0, cols * rows)`. -/
theorem slot_index_bijective (cols rows : Int) (hcols : 0 < cols) :
    (∀ c r : Int, 0 ≤ c → c < cols → 0 ≤ r → r < rows →
      0 ≤ c + r * cols ∧ c + r * cols < cols * rows) ∧
    (∀ c r c1 r1 : Int, 0 ≤ c → c < cols → 0 ≤ c1 → c1 < cols →
      c + r * cols = c1 + r1 * cols → c = c1 ∧ r = r1) ∧
    (∀ k : Int, 0 ≤ k → k < cols * rows →
      ∃ c r : Int, 0 ≤ c ∧ c < cols ∧ 0 ≤ r ∧ r < rows ∧ c + r * cols = k) := by
  refine ⟨?_, ?_, ?_⟩
  · intro c r hc0 hc hr0 hr
    have h1 : 0 ≤ r * cols := Int.mul_nonneg hr0 (Int.le_of_lt hcols)
    have h2 : (r + 1) * cols ≤ rows * cols :=
      Int.mul_le_mul_of_nonneg_right (by omega) (Int.le_of_lt hcols)
    have h3 : (r + 1) * cols = r * cols + cols := by ring
    have h4 : rows * cols = cols * rows := Int.mul_comm rows cols
    constructor
    · omega
    · omega
  · intro c r c1 r1 hc0 hc hc10 hc1 heq
    have hm : (c + r * cols) % cols = c := by
      rw [Int.add_mul_emod_self]
      exact Int.emod_eq_of_lt hc0 hc
    have hm1 : (c1 + r1 * cols) % cols = c1 := by
      rw [Int.add_mul_emod_self]
      exact Int.emod_eq_of_lt hc10 hc1
    have hcc : c = c1 := by rw [← hm, ← hm1, heq]
    subst hcc
    have hr : r * cols = r1 * cols := by omega
    exact ⟨rfl, Int.eq_of_mul_eq_mul_right (by omega) hr⟩
  · intro k hk0 hk
    refine ⟨k % cols, k / cols, Int.emod_nonneg k (by omega), Int.emod_lt_of_pos k hcols,
      Int.ediv_nonneg hk0 (Int.le_of_lt hcols), ?_, ?_⟩
    · exact Int.ediv_lt_of_lt_mul hcols (by rw [Int.mul_comm]; exact hk)
    · rw [Int.mul_comm]
      exact Int.emod_add_ediv k cols

/-- The source rectangle of the frame made for slot `k` lies inside an image
of size `W x H` cut in `C` columns and `R` rows. -/
theorem sliced_frame_inside (W H : Int) (C R k : Nat) (hW : 0 ≤ W) (hH : 0 ≤ H) (hC : 0 < C)
    (hk : k < C * R) :
    ∃ rect, (sliced_frame (Int.tdiv W (C : Int)) (Int.tdiv H (R : Int)) C k).src = some rect ∧
      0 ≤ rect.x ∧ rect.x + rect.w ≤ W ∧ 0 ≤ rect.y ∧ rect.y + rect.h ≤ H := by
  have hR : 0 < R := by
    rcases Nat.eq_zero_or_pos R with h | h
    · subst h; simp at hk
    · exact h
  have hw : Int.tdiv W (C : Int) = W / (C : Int) :=
    Int.tdiv_eq_ediv hW (Int.ofNat_nonneg C)
  have hh : Int.tdiv H (R : Int) = H / (R : Int) :=
    Int.tdiv_eq_ediv hH (Int.ofNat_nonneg R)
  have hw0 : 0 ≤ W / (C : Int) := Int.ediv_nonneg hW (Int.ofNat_nonneg C)
  have hh0 : 0 ≤ H / (R : Int) := Int.ediv_nonneg hH (Int.ofNat_nonneg R)
  have hwC : (C : Int) * (W / (C : Int)) ≤ W := Int.mul_ediv_self_le (by omega)
  have hhR : (R : Int) * (H / (R : Int)) ≤ H := Int.mul_ediv_self_le (by omega)
  have hc : k % C < C := Nat.mod_lt k hC
  have hr : k / C < R := Nat.div_lt_of_lt_mul hk
  refine ⟨_, rfl, ?_, ?_, ?_, ?_⟩
  · simp only [hw]
    exact Int.mul_nonneg (Int.ofNat_nonneg _) hw0
  · simp only [hw]
    have h1 : ((k % C : Nat) : Int) * (W / (C : Int)) + W / (C : Int) =
        (((k % C : Nat) : Int) + 1) * (W / (C : Int)) := by ring
    have h2 : (((k % C : Nat) : Int) + 1) * (W / (C : Int)) ≤ (C : Int) * (W / (C : Int)) :=
      Int.mul_le_mul_of_nonneg_right (by omega) hw0
    omega
  · simp only [hh]
    exact Int.mul_nonneg (Int.ofNat_nonneg _) hh0
  · simp only [hh]
    have h1 : ((k / C : Nat) : Int) * (H / (R : Int)) + H / (R : Int) =
        (((k / C : Nat) : Int) + 1) * (H / (R : Int)) := by ring
    have h2 : (((k / C : Nat) : Int) + 1) * (H / (R : Int)) ≤ (R : Int) * (H / (R : Int)) :=
      Int.mul_le_mul_of_nonneg_right (by omega) hh0
    omega

/-- C20, as amended: when `cols > 0`, `rows > 0` and `cols * rows` fits an
`int`, the slicing loops of `fset_create` run `cols * rows` iterations, each
allocating one surface, and the slot `k` of the frame array ends with the
pointer of the `k`-th surface allocated: every slot is assigned, by one
iteration only. The index map `(c, r) -> c + r * cols` is a bijection from
`[0, cols) x [0, rows)` onto `[0, cols * rows)`, and, the image having a size
`W >= 0`, `H >= 0`, every source rectangle used lies inside it. -/
theorem fset_create_assigns_each_slot_once (NAME_MAX_LEN : Nat) (raw : List Nat)
    (tmp : SDL_Surface) (name : List Nat) (cols rows : Int) (surfaces : List SDL_Surface)
    (hcols : 0 < cols) (hrows : 0 < rows) (hfit : cols * rows ≤ INT_MAX)
    (hW : 0 ≤ tmp.w) (hH : 0 ≤ tmp.h) :
    (∃ frameset surfaces1,
      fset_create NAME_MAX_LEN raw tmp name cols rows surfaces = some (frameset, surfaces1) ∧
      frameset.frames = (List.range' surfaces.length (cols * rows).toNat).map some ∧
      surfaces1.length = surfaces.length + (cols * rows).toNat ∧
      (∀ p, p < surfaces.length → surfaces1[p]? = surfaces[p]?) ∧
      (∀ p s, surfaces.length ≤ p → surfaces1[p]? = some s →
        ∃ rect, s.src = some rect ∧ 0 ≤ rect.x ∧ rect.x + rect.w ≤ tmp.w ∧
          0 ≤ rect.y ∧ rect.y + rect.h ≤ tmp.h)) ∧
    (∀ c r : Int, 0 ≤ c → c < cols → 0 ≤ r → r < rows →
      0 ≤ c + r * cols ∧ c + r * cols < cols * rows) ∧
    (∀ c r c1 r1 : Int, 0 ≤ c → c < cols → 0 ≤ c1 → c1 < cols →
      c + r * cols = c1 + r1 * cols → c = c1 ∧ r = r1) ∧
    (∀ k : Int, 0 ≤ k → k < cols * rows →
      ∃ c r : Int, 0 ≤ c ∧ c < cols ∧ 0 ≤ r ∧ r < rows ∧ c + r * cols = k) := by
  refine ⟨?_, slot_index_bijective cols rows hcols⟩
  obtain ⟨C, rfl⟩ : ∃ C : Nat, cols = (C : Int) := ⟨cols.toNat, by omega⟩
  obtain ⟨R, rfl⟩ : ∃ R : Nat, rows = (R : Int) := ⟨rows.toNat, by omega⟩
  have hC : 0 < C := by omega
  have hR : 0 < R := by omega
  have hprod : (C : Int) * (R : Int) = ((C * R : Nat) : Int) := by push_cast; rfl
  have hspec := fset_create_spec NAME_MAX_LEN raw tmp name C R surfaces hC hR
    (by rw [← hprod]; exact hfit)
  refine ⟨_, _, hspec, ?_, ?_, ?_, ?_⟩
  · simp only [hprod, Int.toNat_ofNat]
  · simp only [hprod, Int.toNat_ofNat, List.length_append, List.length_map, List.length_range]
  · intro p hp
    exact List.getElem?_append_left hp
  · intro p s hp hs
    rw [List.getElem?_append_right hp, List.getElem?_map] at hs
    have hlt : p - surfaces.length < C * R := by
      by_contra hge
      rw [List.getElem?_eq_none (by simp; omega)] at hs
      simp at hs
    rw [List.getElem?_range hlt] at hs
    simp only [Option.map_some', Option.some.injEq] at hs
    subst hs
    exact sliced_frame_inside tmp.w tmp.h C R _ hW hH hC hlt

/-- The slicing of the 64 x 32 image in two columns and one row. -/
theorem fset_create_assigns_each_slot_once_witness :
    ((0 : Int) < 2 ∧ (0 : Int) < 1 ∧ (2 : Int) * 1 ≤ INT_MAX ∧ 0 ≤ scenario_image.w ∧
        0 ≤ scenario_image.h) ∧
      ∃ frameset surfaces1,
        fset_create 32 (List.replicate 32 7) scenario_image [119, 97, 108, 107] 2 1 [] =
          some (frameset, surfaces1) ∧
        frameset.frames = (List.range' ([] : List SDL_Surface).length
          ((2 : Int) * 1).toNat).map some ∧
        surfaces1.length = ([] : List SDL_Surface).length + ((2 : Int) * 1).toNat ∧
        (∀ p, p < ([] : List SDL_Surface).length →
          surfaces1[p]? = ([] : List SDL_Surface)[p]?) ∧
        (∀ p s, ([] : List SDL_Surface).length ≤ p → surfaces1[p]? = some s →
          ∃ rect, s.src = some rect ∧ 0 ≤ rect.x ∧ rect.x + rect.w ≤ scenario_image.w ∧
            0 ≤ rect.y ∧ rect.y + rect.h ≤ scenario_image.h) :=
  ⟨by decide,
   (fset_create_assigns_each_slot_once 32 (List.replicate 32 7) scenario_image
      [119, 97, 108, 107] 2 1 [] (by decide) (by decide) (by decide) (by decide)
      (by decide)).1⟩

/-- C20, as stated, fails when the product of the grid dimensions does not
fit an `int`: with `cols = rows = 46341` the product is 2147488281, above
`INT_MAX`, the assignment of `len` overflows and `fset_create` has no defined
result, so the loops do not assign `cols * rows` slots once each. -/
theorem fset_create_overflows_above_int_max :
    (0 : Int) < 46341 ∧ (46341 : Int) * 46341 = 2147488281 ∧ INT_MAX < (46341 : Int) * 46341 ∧
      fset_create 32 (List.replicate 32 0) scenario_image [119, 97, 108, 107] 46341 46341 [] =
        none := by
  decide

/-- A menu handler leaves the step counter as it was. -/
theorem call_handler_step (h : handler) (game : game_t) :
    (call_handler h game).step = game.step := by
  cases h <;> rfl

/-- A menu handler other than `game_new_game` leaves the mode as it was, and
`game_new_game` sets it to PLAY. -/
theorem call_handler_mode (h : handler) (game : game_t) :
    (call_handler h game).mode = if h = handler.game_new_game then MODE_PLAY else game.mode := by
  cases h <;> rfl

/-- The MENU branch leaves the step counter as it was. -/
theorem game_fast_frame_menu_step (env : env_t) (game : game_t) :
    (game_fast_frame_menu env game).step = game.step := by
  unfold game_fast_frame_menu menu_activate
  by_cases hU : controller_just_pressed game.controller button.BTN_U = true <;>
  by_cases hD : controller_just_pressed game.controller button.BTN_D = true <;>
  by_cases hA : controller_just_pressed game.controller button.BTN_A = true <;>
  simp only [hU, hD, hA, if_true, if_false, Bool.false_eq_true] <;>
  first
  | rfl
  | (split
     · rw [call_handler_step]
     · rfl)

/-- The loop of `game_update_enemies` leaves the step counter as it was. -/
theorem game_update_enemies_loop_step (env : env_t) :
    ∀ (n i : Nat) (game : game_t), (game_update_enemies_loop env n i game).step = game.step := by
  intro n
  induction n with
  | zero => intro i game; rfl
  | succ n ih =>
    intro i game
    unfold game_update_enemies_loop
    cases game.enemies[i]? with
    | none => rfl
    | some e => exact ih (i + 1) _

/-- What every target action keeps, the loop of `game_check_targets` keeps. -/
theorem game_check_targets_loop_keeps {α : Type} (env : env_t) (f : game_t → α)
    (hact : ∀ a t g, f (env.action a t g) = f g) :
    ∀ (ts : List target_t) (i : Nat) (game : game_t),
      f (game_check_targets_loop env ts i game).1 = f game := by
  intro ts
  induction ts with
  | nil => intro i game; rfl
  | cons t ts ih =>
    intro i game
    unfold game_check_targets_loop
    split
    · split
      · exact (ih (i + 1) (env.action t.action t game)).trans (hact t.action t game)
      · exact ih (i + 1) game
    · exact ih (i + 1) game

/-- The PLAY branch keeps the mode when the target actions do. -/
theorem game_fast_frame_play_keeps_mode (env : env_t) (game : game_t)
    (hact : ∀ a t g, (env.action a t g).mode = g.mode) :
    (game_fast_frame_play env game).mode = game.mode := by
  unfold game_fast_frame_play game_check_targets
  simp only []
  rw [game_check_targets_loop_keeps env (fun g => g.mode) hact]
  unfold game_check_enemies game_update_enemies
  simp only []
  exact (game_update_enemies_loop_frame env _ 0 _).2.1

/-- The PLAY branch keeps the step counter when the target actions do. -/
theorem game_fast_frame_play_keeps_step (env : env_t) (game : game_t)
    (hact : ∀ a t g, (env.action a t g).step = g.step) :
    (game_fast_frame_play env game).step = game.step := by
  unfold game_fast_frame_play game_check_targets
  simp only []
  rw [game_check_targets_loop_keeps env (fun g => g.step) hact]
  unfold game_check_enemies game_update_enemies
  simp only []
  exact game_update_enemies_loop_step env _ 0 _

/-- The mode after a logic step. -/
theorem game_fast_frame_mode (env : env_t) (game : game_t)
    (hact : ∀ a t g, (env.action a t g).mode = g.mode) :
    (game_fast_frame env game).mode =
      if game.mode = MODE_MENU then
        (if activates_new_game env { game with step := (game.step + 1) % 2 ^ 32 } then MODE_PLAY
          else MODE_MENU)
      else game.mode := by
  unfold game_fast_frame game_fast_frame_traced
  simp only []
  by_cases hm : game.mode = MODE_MENU
  · rw [if_pos hm, if_pos hm]
    simp only []
    by_cases hp : (game_fast_frame_menu env
        { game with step := (game.step + 1) % 2 ^ 32 }).mode = MODE_PLAY
    · rw [if_pos hp]
      simp only []
      rw [game_fast_frame_play_keeps_mode env _ hact]
      rw [game_fast_frame_menu_mode] at hp ⊢
      simp only [hm] at hp ⊢
    · rw [if_neg hp]
      simp only []
      rw [game_fast_frame_menu_mode] at hp ⊢
      simp only [hm] at hp ⊢
  · rw [if_neg hm, if_neg hm]
    simp only []
    by_cases hp : game.mode = MODE_PLAY
    · rw [if_pos hp]
      simp only []
      rw [game_fast_frame_play_keeps_mode env _ hact]
    · rw [if_neg hp]

/-- The step counter after a logic step. -/
theorem game_fast_frame_step (env : env_t) (game : game_t)
    (hact : ∀ a t g, (env.action a t g).step = g.step) :
    (game_fast_frame env game).step = (game.step + 1) % 2 ^ 32 := by
  unfold game_fast_frame game_fast_frame_traced
  simp only []
  by_cases hm : game.mode = MODE_MENU
  · rw [if_pos hm]
    simp only []
    split
    · simp only []
      rw [game_fast_frame_play_keeps_step env _ hact, game_fast_frame_menu_step]
    · simp only []
      rw [game_fast_frame_menu_step]
  · rw [if_neg hm]
    simp only []
    split
    · simp only []
      rw [game_fast_frame_play_keeps_step env _ hact]
    · rfl

/-- The drawing of `game_full_frame` writes neither the mode nor the step
counter. -/
theorem game_full_frame_frame (env : env_t) (game : game_t) :
    (game_full_frame env game).mode = (game_fast_frame env game).mode ∧
      (game_full_frame env game).step = (game_fast_frame env game).step := by
  unfold game_full_frame
  simp only []
  split <;> split <;> exact ⟨rfl, rfl⟩

/-- C12: the mode is MENU right after `game_create`; `game_new_game` sets it
to PLAY, and `game_exit`, `game_load_game` and `game_options_menu` leave it
as it is. Once the mode is PLAY, no menu handler, no logic step and no full
step sets it back: it is PLAY after each of them. A step that starts in MENU
mode ends in PLAY mode exactly when it activated "New Game". Target actions,
which are not code of the core, are taken to keep the mode. -/
theorem mode_changes_only_by_new_game (env : env_t) (core : core_t) (camera : camera_t)
    (player : player_t) (game : game_t) (h : handler)
    (hact : ∀ a t g, (env.action a t g).mode = g.mode) :
    (game_create env core camera player).mode = MODE_MENU ∧
      (game_new_game game).mode = MODE_PLAY ∧
      (game_exit game).mode = game.mode ∧
      (game_load_game game).mode = game.mode ∧
      (game_options_menu game).mode = game.mode ∧
      (game.mode = MODE_PLAY →
        (call_handler h game).mode = MODE_PLAY ∧
          (game_fast_frame env game).mode = MODE_PLAY ∧
          (game_full_frame env game).mode = MODE_PLAY) ∧
      (game.mode = MODE_MENU →
        (game_fast_frame env game).mode =
            (if activates_new_game env { game with step := (game.step + 1) % 2 ^ 32 } then
              MODE_PLAY else MODE_MENU) ∧
          (game_full_frame env game).mode =
            (if activates_new_game env { game with step := (game.step + 1) % 2 ^ 32 } then
              MODE_PLAY else MODE_MENU)) := by
  have hmp : MODE_PLAY ≠ MODE_MENU := by decide
  refine ⟨rfl, rfl, rfl, rfl, rfl, ?_, ?_⟩
  · intro hp
    have hfast : (game_fast_frame env game).mode = MODE_PLAY := by
      rw [game_fast_frame_mode env game hact, if_neg (by rw [hp]; exact hmp), hp]
    refine ⟨?_, hfast, ?_⟩
    · rw [call_handler_mode]
      split
      · rfl
      · exact hp
    · rw [(game_full_frame_frame env game).1, hfast]
  · intro hm
    have hfast := game_fast_frame_mode env game hact
    rw [if_pos hm] at hfast
    exact ⟨hfast, by rw [(game_full_frame_frame env game).1, hfast]⟩

/-- The modes around `hit_game`, a game in PLAY mode, with the collaborators
of the scenarios. -/
theorem mode_changes_only_by_new_game_witness :
    (∀ a t g, (still_env.action a t g).mode = g.mode) ∧ hit_game.mode = MODE_PLAY ∧
      (game_create still_env hit_game.core hit_game.camera hit_game.player).mode = MODE_MENU ∧
      (game_new_game hit_game).mode = MODE_PLAY ∧
      (game_exit hit_game).mode = hit_game.mode ∧
      (game_load_game hit_game).mode = hit_game.mode ∧
      (game_options_menu hit_game).mode = hit_game.mode ∧
      (call_handler handler.game_exit hit_game).mode = MODE_PLAY ∧
      (game_fast_frame still_env hit_game).mode = MODE_PLAY ∧
      (game_full_frame still_env hit_game).mode = MODE_PLAY := by
  have h := mode_changes_only_by_new_game still_env hit_game.core hit_game.camera
    hit_game.player hit_game handler.game_exit (fun _ _ _ => rfl)
  exact ⟨fun _ _ _ => rfl, rfl, h.1, h.2.1, h.2.2.1, h.2.2.2.1, h.2.2.2.2.1,
    (h.2.2.2.2.2.1 rfl).1, (h.2.2.2.2.2.1 rfl).2.1, (h.2.2.2.2.2.1 rfl).2.2⟩

/-- C13, as amended: the step counter is 0 after `game_create`; a logic step
and a full step each leave it equal to the old value plus one modulo 2^32, in
both modes; so it is the old value plus one, and strictly greater than
before, whenever the old value is below 2^32 - 1. Target actions, which are
not code of the core, are taken to keep the counter. -/
theorem step_advances_once_per_frame (env : env_t) (core : core_t) (camera : camera_t)
    (player : player_t) (game : game_t)
    (hact : ∀ a t g, (env.action a t g).step = g.step) :
    (game_create env core camera player).step = 0 ∧
      (game_fast_frame env game).step = (game.step + 1) % 2 ^ 32 ∧
      (game_full_frame env game).step = (game.step + 1) % 2 ^ 32 ∧
      (game.step + 1 < 2 ^ 32 →
        (game_fast_frame env game).step = game.step + 1 ∧
          (game_full_frame env game).step = game.step + 1 ∧
          game.step < (game_fast_frame env game).step ∧
          game.step < (game_full_frame env game).step) := by
  have hfast := game_fast_frame_step env game hact
  have hfull : (game_full_frame env game).step = (game.step + 1) % 2 ^ 32 := by
    rw [(game_full_frame_frame env game).2, hfast]
  refine ⟨rfl, hfast, hfull, ?_⟩
  intro hlt
  have hmod : (game.step + 1) % 2 ^ 32 = game.step + 1 := Nat.mod_eq_of_lt hlt
  rw [hfast, hfull, hmod]
  exact ⟨rfl, rfl, Nat.lt_succ_self _, Nat.lt_succ_self _⟩

/-- The step counter around `hit_game`, whose counter is 100 in PLAY mode, and
around `exit_click`, a game right after `game_create` in MENU mode. -/
theorem step_advances_once_per_frame_witness :
    (∀ a t g, (still_env.action a t g).step = g.step) ∧ hit_game.step + 1 < 2 ^ 32 ∧
      hit_game.step = 100 ∧
      (game_create still_env hit_game.core hit_game.camera hit_game.player).step = 0 ∧
      (game_fast_frame still_env hit_game).step = 100 + 1 ∧
      (game_full_frame still_env hit_game).step = 100 + 1 ∧
      hit_game.step < (game_fast_frame still_env hit_game).step ∧
      exit_click.mode = MODE_MENU ∧ exit_click.step = 0 ∧
      (game_fast_frame still_env exit_click).step = (0 + 1) % 2 ^ 32 := by
  have h := step_advances_once_per_frame still_env hit_game.core hit_game.camera
    hit_game.player hit_game (fun _ _ _ => rfl)
  have h2 := step_advances_once_per_frame still_env hit_game.core hit_game.camera
    hit_game.player exit_click (fun _ _ _ => rfl)
  exact ⟨fun _ _ _ => rfl, by decide, rfl, h.1, (h.2.2.2 (by decide)).1,
    (h.2.2.2 (by decide)).2.1, (h.2.2.2 (by decide)).2.2.1, rfl, rfl, h2.2.1⟩

/-- C13, as stated, fails at the end of the range of `uint32_t`: from a game
whose step counter is 4294967295, one logic step, and one full step, leave
the counter at 0, which is neither the old value plus one nor greater than
the old value. -/
theorem step_wraps_to_zero :
    last_step_game.step = 4294967295 ∧
      (game_fast_frame still_env last_step_game).step = 0 ∧
      (game_full_frame still_env last_step_game).step = 0 ∧
      ¬ (last_step_game.step < (game_fast_frame still_env last_step_game).step) ∧
      (game_fast_frame still_env last_step_game).step ≠ last_step_game.step + 1 := by
  decide

/-- An iteration of the loop of `game_check_enemies` writes the player's
counter only. -/
theorem game_check_enemies_body_player (env : env_t) (e : enemy_t) (player : player_t) :
    (game_check_enemies_body env e player).2.1.weapon = player.weapon ∧
      (game_check_enemies_body env e player).2.1.body = player.body := by
  unfold game_check_enemies_body
  simp only []
  split_ifs <;> exact ⟨rfl, rfl⟩

/-- An enemy whose counter is not positive leaves its iteration with the
counter 15 when its hitbox overlaps the player's weapon, and as it was
otherwise. -/
theorem game_check_enemies_body_idle (env : env_t) (e : enemy_t) (player : player_t)
    (h : ¬ 0 < e.flashing) :
    (game_check_enemies_body env e player).1 =
      if env.rect_overlap e.rect player.weapon = true then { e with flashing := 15 } else e := by
  unfold game_check_enemies_body
  simp only [if_neg h]
  split <;> rfl

/-- In one run of the loop, an enemy whose counter is not positive ends with
the counter 15 when its hitbox overlaps the player's weapon, and as it was
otherwise. -/
theorem game_check_enemies_loop_idle (env : env_t) :
    ∀ (es : List enemy_t) (i : Nat) (player : player_t) (j : Nat) (e : enemy_t),
      es[j]? = some e → ¬ 0 < e.flashing →
      (game_check_enemies_loop env es i player).1[j]? =
        some (if env.rect_overlap e.rect player.weapon = true then
          { e with flashing := 15 } else e) := by
  intro es
  induction es with
  | nil => intro i player j e hj; simp at hj
  | cons e0 es ih =>
    intro i player j e hj hidle
    cases j with
    | zero =>
      simp only [List.getElem?_cons_zero, Option.some.injEq] at hj
      subst hj
      simp only [game_check_enemies_loop, List.getElem?_cons_zero]
      rw [game_check_enemies_body_idle env e0 player hidle]
    | succ j =>
      simp only [List.getElem?_cons_succ] at hj
      simp only [game_check_enemies_loop, List.getElem?_cons_succ]
      rw [ih (i + 1) _ j e hj hidle, (game_check_enemies_body_player env e0 player).1]

/-- C14: in one pass of `game_check_enemies`, an enemy whose invulnerability
counter is zero at the start of the pass ends the pass with the counter 15
(and nothing else changed) when its hitbox overlaps the player's weapon
rectangle, and with the counter 0, unchanged, when it does not; this holds at
every position of the list, whatever the other enemies are. -/
theorem game_check_enemies_idle_enemy (env : env_t) (game : game_t) (i : Nat) (e : enemy_t)
    (hi : game.enemies[i]? = some e) (hzero : e.flashing = 0) :
    (game_check_enemies env game).enemies[i]? =
        some { e with
          flashing := if env.rect_overlap e.rect game.player.weapon = true then 15 else 0 } ∧
      (game_check_enemies env game).player.weapon = game.player.weapon := by
  have hidle : ¬ 0 < e.flashing := by omega
  have h := game_check_enemies_loop_idle env game.enemies 0 game.player i e hi hidle
  refine ⟨?_, ?_⟩
  · show (game_check_enemies_loop env game.enemies 0 game.player).1[i]? = _
    rw [h]
    split
    · rfl
    · cases e
      simp only at hzero
      subst hzero
      rfl
  · show (game_check_enemies_loop env game.enemies 0 game.player).2.1.weapon = _
    rw [game_check_enemies_loop_player]

/-- Two enemies hit in the same pass: in `three_enemies_game` the first and
the third enemy end with counter 15, the second with counter 0. -/
theorem game_check_enemies_idle_enemy_witness :
    three_enemies_game.enemies[2]? =
        some { flashing := 0, rect := { x := 16, y := 0, w := 10, h := 10 },
               weapon := { x := 5, y := 5, w := 12, h := 4 } } ∧
      (0 : Int) = 0 ∧
      (game_check_enemies still_env three_enemies_game).enemies[2]? =
        some { flashing :=
                 if still_env.rect_overlap { x := 16, y := 0, w := 10, h := 10 }
                   three_enemies_game.player.weapon = true then 15 else 0,
               rect := { x := 16, y := 0, w := 10, h := 10 },
               weapon := { x := 5, y := 5, w := 12, h := 4 } } ∧
      (game_check_enemies still_env three_enemies_game).enemies.map (fun e => e.flashing) =
        [15, 0, 15] := by
  have h := game_check_enemies_idle_enemy still_env three_enemies_game 2
    { flashing := 0, rect := { x := 16, y := 0, w := 10, h := 10 },
      weapon := { x := 5, y := 5, w := 12, h := 4 } } rfl rfl
  exact ⟨rfl, rfl, h.1, by decide⟩

/-- C15: after one pass of `game_check_enemies` the player's invulnerability
counter is 60 when it was zero before the pass and the weapon rectangle of at
least one enemy overlaps the player's body rectangle, and is unchanged in
every other case, in particular whenever it was nonzero; the counters of the
enemies do not enter; the player's rectangles are as before. -/
theorem game_check_enemies_player_counter (env : env_t) (game : game_t) :
    (game_check_enemies env game).player.flashing =
        (if game.player.flashing = 0 ∧
            game.enemies.any (fun e => env.rect_overlap e.weapon game.player.body.rect) = true
          then 60 else game.player.flashing) ∧
      (game.player.flashing ≠ 0 →
        (game_check_enemies env game).player = game.player) ∧
      (game_check_enemies env game).player.body = game.player.body ∧
      (game_check_enemies env game).player.weapon = game.player.weapon := by
  have h : (game_check_enemies env game).player =
      (game_check_enemies_loop env game.enemies 0 game.player).2.1 := rfl
  rw [h, game_check_enemies_loop_player]
  refine ⟨rfl, ?_, rfl, rfl⟩
  intro hnz
  have : ¬ (game.player.flashing = 0 ∧
      game.enemies.any (fun e => env.rect_overlap e.weapon game.player.body.rect) = true) :=
    fun hc => hnz hc.1
  rw [if_neg this]

/-- The player of `three_enemies_game`, whose counter is 0 and whose body is
in the weapon of the third enemy, has the counter 60 after the pass; the
player of `hit_game`, whose counter is 60, keeps it. -/
theorem game_check_enemies_player_counter_witness :
    hit_game.player.flashing ≠ 0 ∧
      (game_check_enemies still_env hit_game).player = hit_game.player ∧
      three_enemies_game.player.flashing = 0 ∧
      (game_check_enemies still_env three_enemies_game).player.flashing = 60 :=
  ⟨by decide,
   (game_check_enemies_player_counter still_env hit_game).2.1 (by decide),
   rfl, by decide⟩

/-- The positions that the loop of `game_check_targets` returns lie in the
part of the list it walked, and none occurs twice. -/
theorem game_check_targets_loop_positions (env : env_t) :
    ∀ (ts : List target_t) (i : Nat) (game : game_t),
      (∀ x ∈ (game_check_targets_loop env ts i game).2, i ≤ x ∧ x < i + ts.length) ∧
        (game_check_targets_loop env ts i game).2.Nodup := by
  intro ts
  induction ts with
  | nil => intro i game; simp [game_check_targets_loop]
  | cons t ts ih =>
    intro i game
    have hrest : ∀ g x, x ∈ (game_check_targets_loop env ts (i + 1) g).2 →
        i ≤ x ∧ x < i + (t :: ts).length := by
      intro g x hx
      have := (ih (i + 1) g).1 x hx
      simp only [List.length_cons]
      omega
    unfold game_check_targets_loop
    split
    · split
      · simp only [List.mem_cons, List.nodup_cons]
        refine ⟨?_, ?_, (ih (i + 1) _).2⟩
        · rintro x (rfl | hx)
          · simp
          · exact hrest _ x hx
        · intro hi
          have := (ih (i + 1) _).1 i hi
          omega
      · exact ⟨hrest game, (ih (i + 1) game).2⟩
    · exact ⟨hrest game, (ih (i + 1) game).2⟩

/-- Under actions that keep the player's body rectangle and the controller,
the loop of `game_check_targets` invokes the action of a target exactly when
the target overlaps the player's body and `BTN_X` was just pressed. -/
theorem game_check_targets_loop_invoked (env : env_t)
    (hrect : ∀ a t g, (env.action a t g).player.body.rect = g.player.body.rect)
    (hctl : ∀ a t g, (env.action a t g).controller = g.controller) :
    ∀ (ts : List target_t) (i : Nat) (game : game_t) (j : Nat) (t : target_t),
      ts[j]? = some t →
      (i + j ∈ (game_check_targets_loop env ts i game).2 ↔
        env.rect_overlap t.rect game.player.body.rect = true ∧
          controller_just_pressed game.controller button.BTN_X = true) := by
  intro ts
  induction ts with
  | nil => intro i game j t hj; simp at hj
  | cons t0 ts ih =>
    intro i game j t hj
    cases j with
    | zero =>
      simp only [List.getElem?_cons_zero, Option.some.injEq] at hj
      subst hj
      have hnot : ∀ g, i ∉ (game_check_targets_loop env ts (i + 1) g).2 := by
        intro g hi
        have := (game_check_targets_loop_positions env ts (i + 1) g).1 i hi
        omega
      unfold game_check_targets_loop
      split
      · split
        · rename_i h1 h2
          simp [h1, h2]
        · rename_i h1 h2
          simp [h1, h2, hnot]
      · rename_i h1
        simp [h1, hnot]
    | succ j =>
      simp only [List.getElem?_cons_succ] at hj
      have hidx : i + (j + 1) = i + 1 + j := by omega
      have hne : i + 1 + j ≠ i := by omega
      unfold game_check_targets_loop
      rw [hidx]
      split
      · split
        · simp only [List.mem_cons, hne, false_or]
          rw [ih (i + 1) _ j t hj, hrect, hctl]
        · exact ih (i + 1) game j t hj
      · exact ih (i + 1) game j t hj

/-- Whether a target fires is the same before and after an action that
keeps the player's body rectangle and the controller. -/
theorem target_fires_after_action (env : env_t)
    (hrect : ∀ a t g, (env.action a t g).player.body.rect = g.player.body.rect)
    (hctl : ∀ a t g, (env.action a t g).controller = g.controller)
    (a : Nat) (t : target_t) (game : game_t) :
    target_fires env (env.action a t game) = target_fires env game := by
  funext t1
  unfold target_fires
  rw [hrect, hctl]

/-- Under actions that keep the player's body rectangle and the controller,
the game that the loop of `game_check_targets` leaves is the game given with
the actions of the firing targets applied to it, in list order, once for each
such node; the positions returned are those of these nodes. -/
theorem game_check_targets_loop_state (env : env_t)
    (hrect : ∀ a t g, (env.action a t g).player.body.rect = g.player.body.rect)
    (hctl : ∀ a t g, (env.action a t g).controller = g.controller) :
    ∀ (ts : List target_t) (i : Nat) (game : game_t) (before : List target_t),
      before.length = i →
      (game_check_targets_loop env ts i game).1 =
          (ts.filter (target_fires env game)).foldl (invoke_action env) game ∧
        (game_check_targets_loop env ts i game).2.map (fun j => (before ++ ts)[j]?) =
          (ts.filter (target_fires env game)).map some := by
  intro ts
  induction ts with
  | nil => intro i game before _; exact ⟨rfl, rfl⟩
  | cons t ts ih =>
    intro i game before hlen
    have hnext : ∀ g, (game_check_targets_loop env ts (i + 1) g).2.map
        (fun j => (before ++ t :: ts)[j]?) =
        (ts.filter (target_fires env g)).map some := by
      intro g
      have h := (ih (i + 1) g (before ++ [t]) (by simp [hlen])).2
      rw [List.append_assoc] at h
      exact h
    have hhead : (before ++ t :: ts)[i]? = some t := by
      rw [List.getElem?_append_right (by omega)]
      simp [hlen]
    by_cases ho : env.rect_overlap t.rect game.player.body.rect = true
    · by_cases hp : controller_just_pressed game.controller button.BTN_X = true
      · have hf : target_fires env game t = true := by
          unfold target_fires
          rw [ho, hp]
          rfl
        have hsame := target_fires_after_action env hrect hctl t.action t game
        unfold game_check_targets_loop
        rw [if_pos ho, if_pos hp]
        simp only [List.filter_cons, hf, if_true, List.foldl_cons, List.map_cons]
        refine ⟨?_, ?_⟩
        · rw [(ih (i + 1) (env.action t.action t game) (before ++ [t]) (by simp [hlen])).1,
            hsame]
          rfl
        · rw [hhead, hnext, hsame]
      · have hf : target_fires env game t = false := by
          unfold target_fires
          simp [hp]
        unfold game_check_targets_loop
        rw [if_pos ho, if_neg hp]
        simp only [List.filter_cons, hf, Bool.false_eq_true, if_false]
        exact ⟨(ih (i + 1) game (before ++ [t]) (by simp [hlen])).1, hnext game⟩
    · have hf : target_fires env game t = false := by
        unfold target_fires
        simp [ho]
      unfold game_check_targets_loop
      rw [if_neg ho]
      simp only [List.filter_cons, hf, Bool.false_eq_true, if_false]
      exact ⟨(ih (i + 1) game (before ++ [t]) (by simp [hlen])).1, hnext game⟩

/-- C16: in one pass of `game_check_targets`, under actions that change
neither the target list, nor the player's body rectangle, nor the controller,
the game that the pass leaves is the game given with the bound action called
on it once for each target node that fires (its rectangle overlaps the
player's body rectangle and `BTN_X` was just pressed in this step), in list
order, and for no other node: the positions of the calls are those of the
firing nodes, none occurs twice, and a target's position is among them
exactly when the target fires. Without the edge on `BTN_X` no action is
called at all and the game is left as it was. -/
theorem game_check_targets_invokes_once (env : env_t) (game : game_t)
    (hlist : ∀ a t g, (env.action a t g).targets = g.targets)
    (hrect : ∀ a t g, (env.action a t g).player.body.rect = g.player.body.rect)
    (hctl : ∀ a t g, (env.action a t g).controller = g.controller) :
    game_check_targets env game =
        (game.targets.filter (target_fires env game)).foldl (invoke_action env) game ∧
      (game_check_targets_loop env game.targets 0 game).2.map (fun j => game.targets[j]?) =
        (game.targets.filter (target_fires env game)).map some ∧
      (game_check_targets_loop env game.targets 0 game).2.Nodup ∧
      (∀ (j : Nat) (t : target_t), game.targets[j]? = some t →
        (j ∈ (game_check_targets_loop env game.targets 0 game).2 ↔
          env.rect_overlap t.rect game.player.body.rect = true ∧
            controller_just_pressed game.controller button.BTN_X = true)) ∧
      (controller_just_pressed game.controller button.BTN_X = false →
        game_check_targets env game = game ∧
          (game_check_targets_loop env game.targets 0 game).2 = []) ∧
      (game_check_targets env game).targets = game.targets := by
  obtain ⟨hpos, hnodup⟩ := game_check_targets_loop_positions env game.targets 0 game
  obtain ⟨hstate, hcalls⟩ :=
    game_check_targets_loop_state env hrect hctl game.targets 0 game [] rfl
  have hinv : ∀ (j : Nat) (t : target_t), game.targets[j]? = some t →
      (j ∈ (game_check_targets_loop env game.targets 0 game).2 ↔
        env.rect_overlap t.rect game.player.body.rect = true ∧
          controller_just_pressed game.controller button.BTN_X = true) := by
    intro j t hj
    have := game_check_targets_loop_invoked env hrect hctl game.targets 0 game j t hj
    simpa using this
  refine ⟨hstate, by simpa using hcalls, hnodup, hinv, ?_, ?_⟩
  · intro hno
    have hnone : game.targets.filter (target_fires env game) = [] := by
      apply List.filter_eq_nil_iff.2
      intro t _
      unfold target_fires
      simp [hno]
    refine ⟨?_, ?_⟩
    · show (game_check_targets_loop env game.targets 0 game).1 = game
      rw [hstate, hnone]
      rfl
    · have h := hcalls
      rw [hnone] at h
      simpa using h
  · exact game_check_targets_loop_keeps env (fun g => g.targets) hlist game.targets 0 game

/-- The three targets of `three_targets_game` with `BTN_X` just pressed and
actions that print: the actions of the first and of the third target, which
are under the player's body, are called, once each and in this order ("door",
then "chest"); with `BTN_X` held since the step before, nothing is called. -/
theorem game_check_targets_invokes_once_witness :
    (∀ a t g, (logging_env.action a t g).targets = g.targets) ∧
      (∀ a t g, (logging_env.action a t g).player.body.rect = g.player.body.rect) ∧
      (∀ a t g, (logging_env.action a t g).controller = g.controller) ∧
      game_check_targets logging_env three_targets_game =
        (three_targets_game.targets.filter (target_fires logging_env three_targets_game)).foldl
          (invoke_action logging_env) three_targets_game ∧
      (game_check_targets logging_env three_targets_game).stdout = ["door", "chest"] ∧
      (game_check_targets_loop logging_env three_targets_game.targets 0 three_targets_game).2 =
        [0, 2] ∧
      game_check_targets logging_env
          { three_targets_game with
            controller := { previous := [button.BTN_X], current := [button.BTN_X] } } =
        { three_targets_game with
          controller := { previous := [button.BTN_X], current := [button.BTN_X] } } :=
  ⟨fun _ _ _ => rfl, fun _ _ _ => rfl, fun _ _ _ => rfl,
   (game_check_targets_invokes_once logging_env three_targets_game (fun _ _ _ => rfl)
      (fun _ _ _ => rfl) (fun _ _ _ => rfl)).1,
   by decide, by decide,
   ((game_check_targets_invokes_once logging_env
      { three_targets_game with
        controller := { previous := [button.BTN_X], current := [button.BTN_X] } }
      (fun _ _ _ => rfl) (fun _ _ _ => rfl) (fun _ _ _ => rfl)).2.2.2.2.1 (by decide)).1⟩

/-- The loop of `anim_add_frame` on an animation whose first slots are filled
and whose next slot is absent: it passes the filled slots and stores the
frame in the first absent one. -/
theorem anim_add_frame_loop_first_absent (anim : anim_t) (frameset : fset_t)
    (frame_index : Int) (f : Option Nat) (filled : List Nat) (rest : List (Option Nat))
    (hframes : anim.frames = filled.map some ++ none :: rest)
    (hget : array_get frameset.frames frame_index = some f) :
    ∀ (n i : Nat), i ≤ filled.length → i + n = filled.length + 1 + rest.length →
      anim_add_frame_loop anim frameset frame_index n i =
        some ({ anim with frames := filled.map some ++ f :: rest }, frameset, []) := by
  intro n
  induction n with
  | zero =>
    intro i hi hn
    omega
  | succ n ih =>
    intro i hi hn
    by_cases hlt : i < filled.length
    · have hslot : anim.frames[i]? = some (some (filled.get ⟨i, hlt⟩)) := by
        rw [hframes, List.getElem?_append_left (by simpa using hlt), List.getElem?_map,
          List.getElem?_eq_getElem hlt]
        rfl
      simp only [anim_add_frame_loop, hslot]
      exact ih (i + 1) (by omega) (by omega)
    · have hi2 : i = filled.length := by omega
      subst hi2
      have hslot : anim.frames[filled.length]? = some none := by
        rw [hframes, List.getElem?_append_right (by simp)]
        simp
      have hsetl : anim.frames.set filled.length f = filled.map some ++ f :: rest := by
        rw [hframes]
        have : filled.length = (filled.map some).length := by simp
        rw [this, List.set_append_right _ _ (Nat.le_refl _)]
        simp
      simp only [anim_add_frame_loop, hslot, hget, hsetl]

/-- A call of `anim_add_frame` with a present frame, on an animation of which
`filled` slots are filled and `m + 1` are absent, fills the first absent slot
and prints nothing. -/
theorem anim_add_frame_fills_next (anim : anim_t) (frameset : fset_t) (frame_index : Int)
    (f : Nat) (filled : List Nat) (m : Nat)
    (hlen : anim.len.toNat = filled.length + (m + 1))
    (hframes : anim.frames = filled.map some ++ List.replicate (m + 1) none)
    (hget : array_get frameset.frames frame_index = some (some f)) :
    anim_add_frame anim frameset frame_index =
      some ({ anim with frames := (filled ++ [f]).map some ++ List.replicate m none },
            frameset, []) := by
  unfold anim_add_frame
  have h := anim_add_frame_loop_first_absent anim frameset frame_index (some f) filled
    (List.replicate m none) (by rw [hframes, List.replicate_succ]) hget anim.len.toNat 0
    (Nat.zero_le _) (by simp [hlen]; omega)
  rw [h]
  simp [List.map_append]

/-- Calls of `anim_add_frame` in a row, with present frames and no more calls
than absent slots, fill the absent slots in order. -/
theorem anim_add_frames_fill_in_order :
    ∀ (calls : List (fset_t × Int)) (added : List Nat) (anim : anim_t) (filled : List Nat)
      (m : Nat),
      calls.map (fun call => array_get call.1.frames call.2) =
        added.map (fun f => some (some f)) →
      anim.len.toNat = filled.length + (calls.length + m) →
      anim.frames = filled.map some ++ List.replicate (calls.length + m) none →
      anim_add_frames anim calls =
        some { anim with
          frames := (filled ++ added).map some ++ List.replicate m none } := by
  intro calls
  induction calls with
  | nil =>
    intro added anim filled m hcalls hlen hframes
    have : added = [] := by
      cases added with
      | nil => rfl
      | cons a as => simp at hcalls
    subst this
    simp only [List.length_nil, Nat.zero_add] at hframes
    simp only [anim_add_frames, List.append_nil, ← hframes]
  | cons call calls ih =>
    intro added anim filled m hcalls hlen hframes
    cases added with
    | nil => simp at hcalls
    | cons f added =>
      simp only [List.map_cons, List.cons.injEq] at hcalls
      obtain ⟨hget, hrest⟩ := hcalls
      have hcount : (call :: calls).length + m = (calls.length + m) + 1 := by
        simp only [List.length_cons]; omega
      rw [hcount] at hlen hframes
      have hcall := anim_add_frame_fills_next anim call.1 call.2 f filled (calls.length + m)
        hlen hframes hget
      have hnext := ih added
        { anim with frames := (filled ++ [f]).map some ++ List.replicate (calls.length + m) none }
        (filled ++ [f]) m hrest (by simp only [List.length_append, List.length_singleton]; omega)
        rfl
      simp only [anim_add_frames, hcall]
      rw [hnext]
      simp

/-- C17: on an animation freshly made by `anim_create` with length `len` (all
slots absent), `k <= len` calls of `anim_add_frame` whose source frames are
all present return, and afterwards slot `i` holds the frame of the
`(i+1)`-th call for every `i < k`, every slot `i` with `k <= i < len` is
still absent, and the name, link, `len` and `fps` are as created. -/
theorem anim_add_frame_fills_in_order (NAME_MAX_LEN : Nat) (raw name : List Nat)
    (len fps : Int) (calls : List (fset_t × Int)) (added : List Nat)
    (hk : (calls.length : Int) ≤ len)
    (hpresent : calls.map (fun call => array_get call.1.frames call.2) =
      added.map (fun f => some (some f))) :
    ∃ anim, anim_add_frames (anim_create NAME_MAX_LEN raw name len fps) calls = some anim ∧
      anim.name = (anim_create NAME_MAX_LEN raw name len fps).name ∧
      anim.next = none ∧ anim.len = len ∧ anim.fps = fps ∧
      (anim.frames.length : Int) = len ∧
      (∀ i : Nat, i < calls.length →
        ∃ f, added[i]? = some f ∧ anim.frames[i]? = some (some f)) ∧
      (∀ i : Nat, calls.length ≤ i → (i : Int) < len → anim.frames[i]? = some none) := by
  have hadded : added.length = calls.length := by
    have := congrArg List.length hpresent
    simpa using this.symm
  obtain ⟨m, hm⟩ : ∃ m : Nat, len.toNat = calls.length + m :=
    ⟨len.toNat - calls.length, by omega⟩
  have h := anim_add_frames_fill_in_order calls added (anim_create NAME_MAX_LEN raw name len fps)
    [] m hpresent (by simpa [anim_create] using hm) (by simp [anim_create, hm])
  refine ⟨_, h, rfl, rfl, rfl, rfl, ?_, ?_, ?_⟩
  · simp only [List.nil_append, List.length_append, List.length_map, List.length_replicate,
      hadded]
    omega
  · intro i hi
    have hia : i < added.length := by omega
    refine ⟨added.get ⟨i, hia⟩, List.getElem?_eq_getElem hia, ?_⟩
    simp only [List.nil_append]
    rw [List.getElem?_append_left (by simpa using hia), List.getElem?_map,
      List.getElem?_eq_getElem hia]
    rfl
  · intro i hi hlt
    simp only [List.nil_append]
    rw [List.getElem?_append_right (by simp [hadded]; exact hi)]
    simp only [List.length_map, hadded]
    have : i - calls.length < m := by omega
    simp [List.getElem?_replicate, this]

/-- Two calls of `anim_add_frame` on a fresh animation of three slots, with
frames 1 and 0 of the frameset of the scenario. -/
theorem anim_add_frame_fills_in_order_witness :
    (([(walk_fset, (1 : Int)), (walk_fset, (0 : Int))] : List (fset_t × Int)).length : Int) ≤ 3 ∧
      ([(walk_fset, (1 : Int)), (walk_fset, (0 : Int))] : List (fset_t × Int)).map
          (fun call => array_get call.1.frames call.2) =
        [1, 0].map (fun f => some (some f)) ∧
      anim_add_frames (anim_create 32 (List.replicate 32 0) [97] 3 10)
          [(walk_fset, 1), (walk_fset, 0)] =
        some { anim_create 32 (List.replicate 32 0) [97] 3 10 with
          frames := [some 1, some 0, none] } ∧
      ∃ anim, anim_add_frames (anim_create 32 (List.replicate 32 0) [97] 3 10)
          [(walk_fset, 1), (walk_fset, 0)] = some anim ∧
        anim.name = (anim_create 32 (List.replicate 32 0) [97] 3 10).name ∧
        anim.next = none ∧ anim.len = 3 ∧ anim.fps = 10 ∧
        (anim.frames.length : Int) = 3 ∧
        (∀ i : Nat, i < ([(walk_fset, (1 : Int)), (walk_fset, (0 : Int))] :
            List (fset_t × Int)).length →
          ∃ f, [1, 0][i]? = some f ∧ anim.frames[i]? = some (some f)) ∧
        (∀ i : Nat, ([(walk_fset, (1 : Int)), (walk_fset, (0 : Int))] :
            List (fset_t × Int)).length ≤ i → (i : Int) < 3 → anim.frames[i]? = some none) :=
  ⟨by decide, by decide, by decide,
   anim_add_frame_fills_in_order 32 (List.replicate 32 0) [97] 3 10
     [(walk_fset, 1), (walk_fset, 0)] [1, 0] (by decide) (by decide)⟩

/-- Adding to a registry a node that is allocated, not linked in it and
without successor, for either node type: the loop returns, only the link of
the last node is written, and the registry is then the old list followed by
the node. -/
theorem list_add_loop_appends {α : Type} [linked α] (heap : List α) (head node : Nat)
    (l : List Nat) (nd : α) (fuel : Nat) (hfuel : l.length ≤ fuel)
    (hreg : registry heap head l) (hnot : node ∉ l) (hnode : heap[node]? = some nd)
    (hnext : linked.next nd = none) :
    ∃ heap2 t tn, list_add_loop heap node fuel head = some heap2 ∧
      l.getLast? = some t ∧ heap[t]? = some tn ∧ linked.next tn = none ∧
      heap2 = heap.set t (linked.set_next tn (some node)) ∧
      registry heap2 head (l ++ [node]) ∧ (l ++ [node]).Nodup ∧
      (∀ p, p ≠ t → heap2[p]? = heap[p]?) := by
  obtain ⟨hhead, hchain⟩ := hreg
  cases l with
  | nil => simp [is_chain] at hchain
  | cons p l =>
    simp only [List.head?_cons, Option.some.injEq] at hhead
    subst hhead
    obtain ⟨t, tn, h1, h2, h3, h4⟩ :=
      list_add_loop_fresh heap node l p fuel hchain hnot (by simp at hfuel; omega)
    have htmem : t ∈ p :: l := List.mem_of_getLast?_eq_some h1
    have hne : node ≠ t := fun h => hnot (h ▸ htmem)
    have hchain2 := is_chain_set_tail heap t node tn nd h2 hnode hnext hne (p :: l) hchain
      (is_chain_nodup _ _ hchain) h1 hnot
    refine ⟨_, t, tn, h4, h1, h2, h3, rfl, ⟨rfl, hchain2⟩, is_chain_nodup _ _ hchain2, ?_⟩
    intro q hq
    rw [List.getElem?_set, if_neg (fun h => hq h.symm)]

/-- C18: for an acyclic registry and a node that is allocated, not linked in
it and without successor, `fset_list_add` and `anim_list_add` return (with
fuel for the length of the list) and append the node at the tail: the nodes
reachable from the head are then the old sequence, in its order, followed by
the new node; the old last node has the new node as its successor and is
otherwise as before, every other node of the heap is as before, and the
registry still reaches `NULL` without visiting a node twice. -/
theorem list_add_appends_at_tail (fsets : List fset_t) (anims : List anim_t) (head node : Nat)
    (l : List Nat) (fuel : Nat) (hfuel : l.length ≤ fuel) (hnot : node ∉ l) :
    (∀ nd : fset_t, registry fsets head l → fsets[node]? = some nd → nd.next = none →
      ∃ heap2 t tn, fset_list_add fuel fsets head node = some heap2 ∧
        l.getLast? = some t ∧ fsets[t]? = some tn ∧
        heap2[t]? = some { tn with next := some node } ∧
        (∀ p, p ≠ t → heap2[p]? = fsets[p]?) ∧
        registry heap2 head (l ++ [node]) ∧ (l ++ [node]).Nodup) ∧
    (∀ nd : anim_t, registry anims head l → anims[node]? = some nd → nd.next = none →
      ∃ heap2 t tn, anim_list_add fuel anims head node = some heap2 ∧
        l.getLast? = some t ∧ anims[t]? = some tn ∧
        heap2[t]? = some { tn with next := some node } ∧
        (∀ p, p ≠ t → heap2[p]? = anims[p]?) ∧
        registry heap2 head (l ++ [node]) ∧ (l ++ [node]).Nodup) := by
  constructor
  · intro nd hreg hnode hnext
    obtain ⟨heap2, t, tn, h1, h2, h3, _, h5, h6, h7, h8⟩ :=
      list_add_loop_appends fsets head node l nd fuel hfuel hreg hnot hnode hnext
    refine ⟨heap2, t, tn, h1, h2, h3, ?_, h8, h6, h7⟩
    have htlt : t < fsets.length := by
      by_contra hge
      rw [List.getElem?_eq_none (by omega)] at h3
      cases h3
    rw [h5, List.getElem?_set, if_pos rfl, if_pos htlt]
    rfl
  · intro nd hreg hnode hnext
    obtain ⟨heap2, t, tn, h1, h2, h3, _, h5, h6, h7, h8⟩ :=
      list_add_loop_appends anims head node l nd fuel hfuel hreg hnot hnode hnext
    refine ⟨heap2, t, tn, h1, h2, h3, ?_, h8, h6, h7⟩
    have htlt : t < anims.length := by
      by_contra hge
      rw [List.getElem?_eq_none (by omega)] at h3
      cases h3
    rw [h5, List.getElem?_set, if_pos rfl, if_pos htlt]
    rfl

/-- The registries of three nodes linked 0, 2, 1, with a fourth node
allocated and added: the list is then 0, 2, 1, 3. -/
theorem list_add_appends_at_tail_witness :
    [0, 2, 1].length ≤ 3 ∧ 3 ∉ [0, 2, 1] ∧
      registry (alloc fset_registry walk_fset).1 0 [0, 2, 1] ∧
      (alloc fset_registry walk_fset).1[3]? = some walk_fset ∧ walk_fset.next = none ∧
      registry (alloc anim_registry anim_two_fps).1 0 [0, 2, 1] ∧
      (alloc anim_registry anim_two_fps).1[3]? = some anim_two_fps ∧
      anim_two_fps.next = none ∧
      (∃ heap2 t tn, fset_list_add 3 (alloc fset_registry walk_fset).1 0 3 = some heap2 ∧
        [0, 2, 1].getLast? = some t ∧ (alloc fset_registry walk_fset).1[t]? = some tn ∧
        heap2[t]? = some { tn with next := some 3 } ∧
        (∀ p, p ≠ t → heap2[p]? = (alloc fset_registry walk_fset).1[p]?) ∧
        registry heap2 0 ([0, 2, 1] ++ [3]) ∧ ([0, 2, 1] ++ [3]).Nodup) ∧
      (∃ heap2 t tn, anim_list_add 3 (alloc anim_registry anim_two_fps).1 0 3 = some heap2 ∧
        [0, 2, 1].getLast? = some t ∧ (alloc anim_registry anim_two_fps).1[t]? = some tn ∧
        heap2[t]? = some { tn with next := some 3 } ∧
        (∀ p, p ≠ t → heap2[p]? = (alloc anim_registry anim_two_fps).1[p]?) ∧
        registry heap2 0 ([0, 2, 1] ++ [3]) ∧ ([0, 2, 1] ++ [3]).Nodup) :=
  ⟨by decide, by decide, by decide, by decide, by decide, by decide, by decide, by decide,
   (list_add_appends_at_tail (alloc fset_registry walk_fset).1
      (alloc anim_registry anim_two_fps).1 0 3 [0, 2, 1] 3 (by decide) (by decide)).1
      walk_fset (by decide) (by decide) (by decide),
   (list_add_appends_at_tail (alloc fset_registry walk_fset).1
      (alloc anim_registry anim_two_fps).1 0 3 [0, 2, 1] 3 (by decide) (by decide)).2
      anim_two_fps (by decide) (by decide) (by decide)⟩

/-- The product of two non-negative binary64 values is non-negative. -/
theorem double_mul_nonneg (a b : double) (ha : 0 ≤ a.m) (hb : 0 ≤ b.m) :
    0 ≤ (double_mul a b).m := by
  unfold double_mul
  simp only []
  have hp : 0 ≤ a.m * b.m := Int.mul_nonneg ha hb
  exact Int.mul_nonneg (Int.sign_nonneg.2 hp) (Int.ofNat_nonneg _)

/-- The conversion to `int` of a non-negative binary64 value is
non-negative. -/
theorem double_to_int_nonneg (d : double) (t : Int) (hd : 0 ≤ d.m)
    (h : double_to_int d = some t) : 0 ≤ t := by
  unfold double_to_int at h
  by_cases he : 0 ≤ d.e
  · simp only [if_pos he] at h
    split at h
    · simp only [Option.some.injEq] at h
      subst h
      exact Int.mul_nonneg hd (by positivity)
    · cases h
  · simp only [if_neg he] at h
    split at h
    · simp only [Option.some.injEq] at h
      subst h
      exact Int.tdiv_nonneg hd (by positivity)
    · cases h

/-- The frame offset of `anim_draw` is non-negative for a non-negative step
and a non-negative rate. -/
theorem anim_frame_offset_nonneg (fps step k : Int) (hfps : 0 ≤ fps) (hstep : 0 ≤ step)
    (h : anim_frame_offset fps step = some k) : 0 ≤ k := by
  unfold anim_frame_offset at h
  refine double_to_int_nonneg _ k ?_ h
  apply double_mul_nonneg
  · apply double_mul_nonneg
    · exact hstep
    · decide
  · exact hfps

/-- C19: for `len > 0`, `fps >= 0` and `step >= 0` for which the frame offset
`(int)((step*0.01666) * fps)` fits an `int`, the index that `anim_draw`
computes is defined and lies in `[0, len)`, and the slot access falls inside
a frame array of `len` entries: `anim_draw` reads a slot of the animation. -/
theorem anim_draw_index_in_bounds (anim : anim_t) (step k : Int) (hlen : 0 < anim.len)
    (hfps : 0 ≤ anim.fps) (hstep : 0 ≤ step)
    (hfit : anim_frame_offset anim.fps step = some k)
    (hframes : anim.len.toNat ≤ anim.frames.length) :
    ∃ i, anim_draw_index anim.len anim.fps step = some i ∧ 0 ≤ i ∧ i < anim.len ∧
      ∃ f, anim.frames[i.toNat]? = some f ∧ anim_draw anim step = some f := by
  have hk := anim_frame_offset_nonneg anim.fps step k hfps hstep hfit
  have hne : anim.len ≠ 0 := by omega
  have hmin : ¬ (k = INT_MIN ∧ anim.len = -1) := by omega
  have hidx : anim_draw_index anim.len anim.fps step = some (Int.tmod k anim.len) := by
    unfold anim_draw_index
    rw [hfit]
    simp only [if_neg hne, if_neg hmin]
  have h0 : 0 ≤ Int.tmod k anim.len := Int.tmod_nonneg _ hk
  have h1 : Int.tmod k anim.len < anim.len := Int.tmod_lt_of_pos k hlen
  have hlt : (Int.tmod k anim.len).toNat < anim.frames.length := by omega
  refine ⟨_, hidx, h0, h1, anim.frames.get ⟨_, hlt⟩, List.getElem?_eq_getElem hlt, ?_⟩
  unfold anim_draw
  rw [hidx]
  simp only [array_get]
  rw [if_pos h0]
  exact List.getElem?_eq_getElem hlt

/-- The animation of two frames at 2 fps at step 61, whose frame offset is 2;
at the step -31 the offset is -1, the index is -1 and the access is outside
the array. -/
theorem anim_draw_index_in_bounds_witness :
    (0 : Int) < anim_two_fps.len ∧ (0 : Int) ≤ anim_two_fps.fps ∧ (0 : Int) ≤ 61 ∧
      anim_frame_offset anim_two_fps.fps 61 = some 2 ∧
      anim_two_fps.len.toNat ≤ anim_two_fps.frames.length ∧
      (∃ i, anim_draw_index anim_two_fps.len anim_two_fps.fps 61 = some i ∧ 0 ≤ i ∧
        i < anim_two_fps.len ∧
        ∃ f, anim_two_fps.frames[i.toNat]? = some f ∧ anim_draw anim_two_fps 61 = some f) ∧
      anim_draw_index anim_two_fps.len anim_two_fps.fps (-31) = some (-1) ∧
      anim_draw anim_two_fps (-31) = none :=
  ⟨by decide, by decide, by decide, by decide, by decide,
   anim_draw_index_in_bounds anim_two_fps 61 2 (by decide) (by decide) (by decide)
     (by decide) (by decide),
   by decide, by decide⟩

end NNLAF
